import Mathlib

/-! # dfr.js: a shallow embedding and its verified properties

The module `src/dfr.js` is a small dataframe library written in JavaScript.  This
development embeds its functions in Lean and proves properties of them.

Modelling conventions:

* **Values.**  `JSValue` is the universe of JavaScript values the functions are
  run on: `undefined`, `null`, booleans, numbers, strings and arrays (nested to
  any depth).  Functions, symbols, bigints and non-array objects are outside the
  universe.  An array is the list of its elements: arrays are dense and carry no
  properties besides their elements and `length`.  Where it matters which object
  a row is (the in-place mutation of `convertToNumber`), the dataframe is an array
  of references into a store of row objects (`convertToNumberInPlace`).
* **Numbers.**  `JSNumber` is IEEE-754 binary64 with round-to-nearest-even.  A
  finite double is an integer multiple of `2^-1074`; `JSNumber.fin m` is the
  number `m * 2^-1074`.  The sign of zero is not modelled (`-0` and `+0` are one
  value, as they are for `===`).
* **Strings.**  A string is its sequence of UTF-16 code units, written as Lean
  characters.
* **Errors.**  A function that can raise a `TypeError` returns `Except JSError`.
* **Mutation.**  `convertToNumber` mutates its argument; the embedding returns the
  count together with the dataframe (or the store of row objects) as it is after
  the call.
* **Files.**  `loadCSV` reads the file system through a map from paths to the text
  of the file there, if there is one.
-/

namespace Dfr

/-! ## Numbers -/

/-- A JavaScript number.  `fin m` is the finite value `m * 2^-1074`. -/
inductive JSNumber where
  | nan
  | posInf
  | negInf
  | fin (m : Int)
  deriving DecidableEq, Repr

namespace JSNumber

/-- The number `1` in units of `2^-1074`. -/
def one : Nat := 2 ^ 1074

/-- The least magnitude, in units of `2^-1074`, that is not a finite double:
`2^1024`. -/
def overflow : Nat := 2 ^ 2098

/-- Nearest integer to `p / d`, ties to even (`d > 0`). -/
def halfEven (p d : Nat) : Nat :=
  let q := p / d
  let r := p % d
  if 2 * r < d then q
  else if d < 2 * r then q + 1
  else if q % 2 = 0 then q else q + 1

/-- Number of low bits of `n` that do not fit in a 53-bit significand:
`0` when `n < 2^53`, otherwise `⌊log2 n⌋ - 52` (given enough fuel; `fuel = n`
is always enough). -/
def excessBits : Nat → Nat → Nat
  | 0, _ => 0
  | fuel + 1, n => if n < 2 ^ 53 then 0 else excessBits fuel (n / 2) + 1

/-- Magnitude, in units of `2^-1074`, of the double nearest to `p / d` units. -/
def roundMag (p d : Nat) : Nat :=
  let k := excessBits (p / d) (p / d)
  halfEven p (d * 2 ^ k) * 2 ^ k

/-- The double nearest to `± p / d` units of `2^-1074`; magnitudes that round to
`2^1024` or more overflow to an infinity. -/
def ofUnits (neg : Bool) (p d : Nat) : JSNumber :=
  let r := roundMag p d
  if overflow ≤ r then (if neg then negInf else posInf)
  else fin (if neg then -(r : Int) else (r : Int))

/-- The double nearest to the rational `num / den` (`den > 0`). -/
def ofRat (num : Int) (den : Nat) : JSNumber :=
  ofUnits (decide (num < 0)) (num.natAbs * one) den

/-- The double nearest to an integer. -/
def ofInt (i : Int) : JSNumber := ofRat i 1

/-- The double nearest to a natural number (exact below `2^53`). -/
def ofNat (n : Nat) : JSNumber := ofRat (n : Int) 1

/-- The number `0`. -/
def zero : JSNumber := fin 0

/-- Result of rounding the exact value `m` units. -/
def roundInt (m : Int) : JSNumber := ofUnits (decide (m < 0)) m.natAbs 1

/-- JavaScript `a + b` on numbers. -/
def add : JSNumber → JSNumber → JSNumber
  | nan, _ => nan
  | _, nan => nan
  | posInf, negInf => nan
  | negInf, posInf => nan
  | posInf, _ => posInf
  | negInf, _ => negInf
  | _, posInf => posInf
  | _, negInf => negInf
  | fin a, fin b => roundInt (a + b)

/-- JavaScript `a - b` on numbers. -/
def sub : JSNumber → JSNumber → JSNumber
  | nan, _ => nan
  | _, nan => nan
  | posInf, posInf => nan
  | negInf, negInf => nan
  | posInf, _ => posInf
  | negInf, _ => negInf
  | _, posInf => negInf
  | _, negInf => posInf
  | fin a, fin b => roundInt (a - b)

/-- JavaScript `a / b` on numbers (a zero divisor is `+0`). -/
def div : JSNumber → JSNumber → JSNumber
  | nan, _ => nan
  | _, nan => nan
  | posInf, fin b => if b < 0 then negInf else posInf
  | negInf, fin b => if b < 0 then posInf else negInf
  | fin _, posInf => fin 0
  | fin _, negInf => fin 0
  | fin a, fin b =>
      if b = 0 then (if a = 0 then nan else if a < 0 then negInf else posInf)
      else ofUnits (decide ((a < 0) ≠ (b < 0))) (a.natAbs * one) b.natAbs
  | _, _ => nan

/-- JavaScript `a < b` on numbers (`false` whenever an operand is `NaN`). -/
def lt : JSNumber → JSNumber → Bool
  | nan, _ => false
  | _, nan => false
  | _, negInf => false
  | posInf, _ => false
  | negInf, _ => true
  | _, posInf => true
  | fin a, fin b => decide (a < b)

/-- JavaScript `a === b` on numbers (`NaN` equals nothing). -/
def strictEq : JSNumber → JSNumber → Bool
  | nan, _ => false
  | _, nan => false
  | a, b => decide (a = b)

/-- Whether a number is an integer `i` with `0 ≤ i`, and which. -/
def toIndex? : JSNumber → Option Nat
  | fin m => if 0 ≤ m ∧ m % (one : Int) = 0 then some (m / (one : Int)).toNat else none
  | _ => none

end JSNumber

/-! ## Values -/

/-- A JavaScript value. -/
inductive JSValue where
  | undefined
  | null
  | boolean (b : Bool)
  | number (n : JSNumber)
  | string (s : String)
  | array (elems : List JSValue)
  deriving Repr

/-- An uncaught JavaScript exception. -/
inductive JSError where
  | typeError
  deriving DecidableEq, Repr

namespace JSValue

mutual
/-- Decidable equality of values. -/
def decEq : (a b : JSValue) → Decidable (a = b)
  | undefined, undefined => isTrue rfl
  | null, null => isTrue rfl
  | boolean a, boolean b =>
      if h : a = b then isTrue (by rw [h]) else isFalse (by intro e; cases e; exact h rfl)
  | number a, number b =>
      if h : a = b then isTrue (by rw [h]) else isFalse (by intro e; cases e; exact h rfl)
  | string a, string b =>
      if h : a = b then isTrue (by rw [h]) else isFalse (by intro e; cases e; exact h rfl)
  | array a, array b =>
      match decEqList a b with
      | isTrue h => isTrue (by rw [h])
      | isFalse h => isFalse (by intro e; cases e; exact h rfl)
  | undefined, null | undefined, boolean _ | undefined, number _ | undefined, string _
  | undefined, array _ => isFalse (by intro e; cases e)
  | null, undefined | null, boolean _ | null, number _ | null, string _
  | null, array _ => isFalse (by intro e; cases e)
  | boolean _, undefined | boolean _, null | boolean _, number _ | boolean _, string _
  | boolean _, array _ => isFalse (by intro e; cases e)
  | number _, undefined | number _, null | number _, boolean _ | number _, string _
  | number _, array _ => isFalse (by intro e; cases e)
  | string _, undefined | string _, null | string _, boolean _ | string _, number _
  | string _, array _ => isFalse (by intro e; cases e)
  | array _, undefined | array _, null | array _, boolean _ | array _, number _
  | array _, string _ => isFalse (by intro e; cases e)
/-- Decidable equality of lists of values. -/
def decEqList : (a b : List JSValue) → Decidable (a = b)
  | [], [] => isTrue rfl
  | [], _ :: _ => isFalse (by intro e; cases e)
  | _ :: _, [] => isFalse (by intro e; cases e)
  | x :: xs, y :: ys =>
      match decEq x y, decEqList xs ys with
      | isTrue h1, isTrue h2 => isTrue (by rw [h1, h2])
      | isFalse h1, _ => isFalse (by intro e; cases e; exact h1 rfl)
      | _, isFalse h2 => isFalse (by intro e; cases e; exact h2 rfl)
end

instance : DecidableEq JSValue := decEq

/-- The `typeof` operator. -/
def typeof : JSValue → String
  | undefined => "undefined"
  | null => "object"
  | boolean _ => "boolean"
  | number _ => "number"
  | string _ => "string"
  | array _ => "object"

/-- The predicate `Array.isArray`. -/
def isArray : JSValue → Bool
  | array _ => true
  | _ => false

/-- ToBoolean: the values for which `!v` is `false`. -/
def truthy : JSValue → Bool
  | undefined => false
  | null => false
  | boolean b => b
  | number n => !(n = JSNumber.nan ∨ n = JSNumber.fin 0)
  | string s => !(s.toList = [])
  | array _ => true

/-- The `===` operator.  Two arrays are the same only as objects; the pattern a
caller passes is taken to be an object of its own, so an array never equals it. -/
def strictEq : JSValue → JSValue → Bool
  | undefined, undefined => true
  | null, null => true
  | boolean a, boolean b => a == b
  | number a, number b => JSNumber.strictEq a b
  | string a, string b => decide (a = b)
  | _, _ => false

end JSValue

/-! ## Strings and their numeric value -/

/-- The class `\d`: the ASCII digits. -/
def asciiDigits : List Char := ['0', '1', '2', '3', '4', '5', '6', '7', '8', '9']

/-- Membership in `asciiDigits`, as a boolean. -/
def isDigitChar (c : Char) : Bool := decide (c ∈ asciiDigits)

/-- WhiteSpace and LineTerminator code points: what `trim`, `Number` and
`parseFloat` strip. -/
def isStrWhiteSpaceChar (c : Char) : Bool :=
  decide (c.toNat ∈ [0x9, 0xA, 0xB, 0xC, 0xD, 0x20, 0xA0, 0x1680, 0x2028, 0x2029,
    0x202F, 0x205F, 0x3000, 0xFEFF]) || (decide (0x2000 ≤ c.toNat) && decide (c.toNat ≤ 0x200A))

/-- Value of a digit character. -/
def digitVal (c : Char) : Nat := c.toNat - '0'.toNat

/-- Value of a string of decimal digits. -/
def digitsToNat (ds : List Char) : Nat := ds.foldl (fun acc c => 10 * acc + digitVal c) 0

/-- The double nearest to `± n * 10^ex`. -/
def ofDecimal (neg : Bool) (n : Nat) (ex : Int) : JSNumber :=
  if 0 ≤ ex then JSNumber.ofUnits neg (n * 10 ^ ex.toNat * JSNumber.one) 1
  else JSNumber.ofUnits neg (n * JSNumber.one) (10 ^ (-ex).toNat)

/-- An ExponentPart (`e` or `E`, an optional sign, one or more digits) at the head
of the input: its value and the rest; `(0, cs)` when there is none. -/
def scanExponent (cs : List Char) : Int × List Char :=
  match cs with
  | c :: t =>
      if c = 'e' ∨ c = 'E' then
        let neg := decide (t.head? = some '-')
        let body := if t.head? = some '-' ∨ t.head? = some '+' then t.tail else t
        let ds := body.takeWhile isDigitChar
        if ds = [] then (0, cs)
        else (if neg then -(digitsToNat ds : Int) else (digitsToNat ds : Int),
              body.dropWhile isDigitChar)
      else (0, cs)
  | [] => (0, cs)

/-- The longest StrUnsignedDecimalLiteral at the head of the input, with the
given sign: its value and the rest of the input. -/
def scanUnsigned (neg : Bool) (cs : List Char) : Option (JSNumber × List Char) :=
  if cs.take 8 = ['I', 'n', 'f', 'i', 'n', 'i', 't', 'y'] then
    some (if neg then JSNumber.negInf else JSNumber.posInf, cs.drop 8)
  else
    let ip := cs.takeWhile isDigitChar
    let r1 := cs.dropWhile isDigitChar
    let fp := match r1 with
      | '.' :: t => t.takeWhile isDigitChar
      | _ => []
    let r2 := match r1 with
      | '.' :: t => t.dropWhile isDigitChar
      | _ => r1
    if ip = [] ∧ fp = [] then none
    else
      let ex := scanExponent r2
      some (ofDecimal neg (digitsToNat (ip ++ fp)) (ex.1 - (fp.length : Int)), ex.2)

/-- The longest StrDecimalLiteral at the head of the input. -/
def scanDecimal (cs : List Char) : Option (JSNumber × List Char) :=
  match cs with
  | c :: t =>
      if c = '-' then scanUnsigned true t
      else if c = '+' then scanUnsigned false t
      else scanUnsigned false cs
  | [] => scanUnsigned false cs

/-- Value of a digit of a hexadecimal, octal or binary literal below `radix`. -/
def radixDigit? (radix : Nat) (c : Char) : Option Nat :=
  let v :=
    if isDigitChar c then some (digitVal c)
    else if 'a'.toNat ≤ c.toNat ∧ c.toNat ≤ 'f'.toNat then some (c.toNat - 'a'.toNat + 10)
    else if 'A'.toNat ≤ c.toNat ∧ c.toNat ≤ 'F'.toNat then some (c.toNat - 'A'.toNat + 10)
    else none
  v.bind (fun d => if d < radix then some d else none)

/-- Value of the digits of a literal in the given radix; `none` when there is no
digit or a character is not a digit of the radix. -/
def radixValue? (radix : Nat) (ds : List Char) : Option Nat :=
  if ds = [] then none
  else ds.foldl (fun acc c => acc.bind (fun a => (radixDigit? radix c).map (fun d => radix * a + d)))
    (some 0)

/-- A NonDecimalIntegerLiteral (`0x`, `0o`, `0b`): its value. -/
def nonDecimal? (cs : List Char) : Option JSNumber :=
  match cs with
  | '0' :: c :: ds =>
      let radix : Option Nat :=
        if c = 'x' ∨ c = 'X' then some 16
        else if c = 'o' ∨ c = 'O' then some 8
        else if c = 'b' ∨ c = 'B' then some 2
        else none
      radix.bind (fun r => (radixValue? r ds).map JSNumber.ofNat)
  | _ => none

/-- The method `String.prototype.trim`, on the characters of the string. -/
def trimChars (cs : List Char) : List Char :=
  (cs.dropWhile isStrWhiteSpaceChar).rdropWhile isStrWhiteSpaceChar

/-- StringToNumber: the number a string converts to. -/
def stringToNumber (s : String) : JSNumber :=
  let cs := trimChars s.toList
  if cs = [] then JSNumber.fin 0
  else
    match scanDecimal cs with
    | some (v, []) => v
    | _ =>
        match nonDecimal? cs with
        | some v => v
        | none => JSNumber.nan

namespace JSValue

/-- The function `Number(v)` (ToNumber).  An array converts through its string
form, the comma-joined elements: the empty array is `0`, a one-element array
converts as its element does (`null` and `undefined` as the empty string, a
boolean as its name), a longer array has a comma and is `NaN`. -/
def Number : JSValue → JSNumber
  | undefined => JSNumber.nan
  | null => JSNumber.fin 0
  | boolean b => if b then JSNumber.ofNat 1 else JSNumber.fin 0
  | number n => n
  | string s => stringToNumber s
  | array [] => JSNumber.fin 0
  | array [undefined] => JSNumber.fin 0
  | array [null] => JSNumber.fin 0
  | array [boolean _] => JSNumber.nan
  | array [x] => Number x
  | array (_ :: _ :: _) => JSNumber.nan

/-- The function `parseFloat(v)`: the longest decimal literal at the head of the
string form of `v`, after leading white space; `NaN` when there is none.  The
string form of an array starts with the string form of its first element. -/
def parseFloat : JSValue → JSNumber
  | undefined => JSNumber.nan
  | null => JSNumber.nan
  | boolean _ => JSNumber.nan
  | number n => n
  | string s =>
      match scanDecimal (s.toList.dropWhile isStrWhiteSpaceChar) with
      | some (v, _) => v
      | none => JSNumber.nan
  | array [] => JSNumber.nan
  | array (undefined :: _) => JSNumber.nan
  | array (null :: _) => JSNumber.nan
  | array (x :: _) => parseFloat x

/-- The elements of an array (no element for any other value). -/
def elems : JSValue → List JSValue
  | array xs => xs
  | _ => []

end JSValue

/-- Decidable equality of results. -/
instance instDecidableEqResult : DecidableEq (Except JSError JSValue) := fun a b =>
  match a, b with
  | Except.ok x, Except.ok y =>
      if h : x = y then isTrue (by rw [h]) else isFalse (by intro e; cases e; exact h rfl)
  | Except.error x, Except.error y =>
      if h : x = y then isTrue (by rw [h]) else isFalse (by intro e; cases e; exact h rfl)
  | Except.ok _, Except.error _ => isFalse (by intro e; cases e)
  | Except.error _, Except.ok _ => isFalse (by intro e; cases e)

/-! ## Property access -/

/-- A property key, as far as arrays and strings tell keys apart. -/
inductive PropKey where
  | index (i : Nat)
  | length
  | other
  deriving DecidableEq, Repr

/-- Whether a string is the canonical decimal form of a natural number, and of
which: `0`, or digits with no leading zero. -/
def canonicalIndex? (cs : List Char) : Option Nat :=
  match cs with
  | [] => none
  | ['0'] => some 0
  | c :: t =>
      if c ≠ '0' ∧ isDigitChar c ∧ t.all isDigitChar then some (digitsToNat (c :: t)) else none

/-- ToPropertyKey.  A number names an index when it is a non-negative integer; a
string names an index when it is canonical, or `length`; an array names what its
string form names. -/
def toPropertyKey : JSValue → PropKey
  | .number n =>
      match n.toIndex? with
      | some i => PropKey.index i
      | none => PropKey.other
  | .string s =>
      if s.toList = ['l', 'e', 'n', 'g', 't', 'h'] then PropKey.length
      else
        match canonicalIndex? s.toList with
        | some i => PropKey.index i
        | none => PropKey.other
  | .array [.undefined] => PropKey.other
  | .array [.null] => PropKey.other
  | .array [x] => toPropertyKey x
  | _ => PropKey.other

/-- The read `cells[key]` on an array.  A key that is neither an index nor
`length` names no element; inherited members are outside the value universe and
read as `undefined`. -/
def arrayGet (cells : List JSValue) (key : JSValue) : JSValue :=
  match toPropertyKey key with
  | PropKey.index i => cells.getD i JSValue.undefined
  | PropKey.length => JSValue.number (JSNumber.ofNat cells.length)
  | PropKey.other => JSValue.undefined

/-- The write `cells[key] = v` on an array, at an index inside the array (the only
write `convertToNumber` performs); any other key leaves the elements as they are. -/
def arraySet (cells : List JSValue) (key : JSValue) (v : JSValue) : List JSValue :=
  match toPropertyKey key with
  | PropKey.index i => cells.set i v
  | _ => cells

/-- The read `obj[key]`: a `TypeError` on `undefined` and `null`. -/
def getProp (obj key : JSValue) : Except JSError JSValue :=
  match obj with
  | .undefined => Except.error JSError.typeError
  | .null => Except.error JSError.typeError
  | .array cells => Except.ok (arrayGet cells key)
  | .string s =>
      match toPropertyKey key with
      | PropKey.index i =>
          match s.toList.get? i with
          | some c => Except.ok (JSValue.string (String.singleton c))
          | none => Except.ok JSValue.undefined
      | PropKey.length => Except.ok (JSValue.number (JSNumber.ofNat s.length))
      | PropKey.other => Except.ok JSValue.undefined
  | _ => Except.ok JSValue.undefined

/-! ## The regular expression of `validNumber` -/

/-- The regular expression `\d`. -/
def reDigit : RegularExpression Char :=
  (asciiDigits.map RegularExpression.char).foldr (· + ·) 0

/-- The regular expression `r?`. -/
def reOpt (r : RegularExpression Char) : RegularExpression Char := 1 + r

/-- The regular expression `r+`. -/
def rePlus (r : RegularExpression Char) : RegularExpression Char := r * RegularExpression.star r

/-- The body of the literal `/^-?\d+(\.\d+)?$/`; the anchors `^` and `$` (no `m`
flag) make `test` a match of the whole string. -/
def pattern : RegularExpression Char :=
  reOpt (RegularExpression.char '-') *
    (rePlus reDigit * reOpt (RegularExpression.char '.' * rePlus reDigit))

/-- The call `pattern.test(num)`, which `validNumber` makes on strings only. -/
def patternTest (num : JSValue) : Bool :=
  match num with
  | .string s => pattern.rmatch s.toList
  | _ => false

/-! ## The functions of dfr.js -/

/-- The function `validNumber` (dfr.js, lines 8-11). -/
def validNumber (num : JSValue) : Bool :=
  num.typeof == "number" || (num.typeof == "string" && patternTest num)

/-- The function `dataDimensions` (dfr.js, lines 14-22); the pair is the returned
array `[rows, cols]`. -/
def dataDimensions (data : JSValue) : Int × Int :=
  if !data.truthy then (-1, -1)
  else
    match data with
    | .array xs =>
        let rows : Int := xs.length
        let cols : Int :=
          if 0 < rows ∧ (xs.getD 0 JSValue.undefined).isArray
          then ((xs.getD 0 JSValue.undefined).elems.length : Int) else -1
        (rows, cols)
    | _ => (-1, -1)

/-- The expression `dataset.filter(validNumber).map(Number)`. -/
def validNums (dataset : List JSValue) : List JSNumber :=
  (dataset.filter validNumber).map JSValue.Number

/-- The function `calculateMean` (dfr.js, lines 25-30). -/
def calculateMean (dataset : JSValue) : JSNumber :=
  match dataset with
  | .array xs =>
      if xs.length = 0 then JSNumber.fin 0
      else
        let validNums := validNums xs
        if validNums.length = 0 then JSNumber.fin 0
        else JSNumber.div (validNums.foldl JSNumber.add (JSNumber.fin 0))
          (JSNumber.ofNat validNums.length)
  | _ => JSNumber.fin 0

/-- The function `findTotal` (dfr.js, lines 33-38). -/
def findTotal (dataset : JSValue) : JSNumber :=
  match dataset with
  | .array xs =>
      if xs.length = 0 then JSNumber.fin 0
      else (validNums xs).foldl JSNumber.add (JSNumber.fin 0)
  | _ => JSNumber.fin 0

/-- The comparator `(a, b) => a - b`. -/
def compareFn (a b : JSNumber) : JSNumber := JSNumber.sub a b

/-- Insertion of `x` into a sorted array: `x` goes after `y` only when the
comparator is positive on `(x, y)` (a `NaN` result counts as `0`). -/
def sortInsert (x : JSNumber) : List JSNumber → List JSNumber
  | [] => [x]
  | y :: ys =>
      if JSNumber.lt (JSNumber.fin 0) (compareFn x y) then y :: sortInsert x ys
      else x :: y :: ys

/-- The call `validNums.sort((a, b) => a - b)`: a stable sort by the comparator.
When no `NaN` is among the values the comparator is consistent and the sorted
array is the one ascending arrangement of the values, whatever the algorithm.
When a `NaN` is among them the comparator is not consistent and ECMAScript leaves
the order to the implementation: the model is then one such order (an insertion
sort from the right), and an engine may leave another (on `[3, 2, NaN, 1]` the
model leaves `[2, 3, NaN, 1]`, the binary insertion sort of V8 `[1, 2, 3, NaN]`).
The arrays with a `NaN` that the theorems below evaluate, `[NaN, 2, 1]` and
`[2, 1, NaN]`, are left as `[NaN, 1, 2]` and `[1, 2, NaN]` by both. -/
def sortNumbers : List JSNumber → List JSNumber
  | [] => []
  | x :: xs => sortInsert x (sortNumbers xs)

/-- The function `calculateMedian` (dfr.js, lines 88-97).  A read outside the
array would be `undefined`, which the arithmetic turns into `NaN`. -/
def calculateMedian (dataset : JSValue) : JSNumber :=
  match dataset with
  | .array xs =>
      if xs.length = 0 then JSNumber.fin 0
      else
        let validNums := validNums xs
        if validNums.length = 0 then JSNumber.fin 0
        else
          let sorted := sortNumbers validNums
          let mid := sorted.length / 2
          if sorted.length % 2 = 0 then
            JSNumber.div (JSNumber.add (sorted.getD (mid - 1) JSNumber.nan)
              (sorted.getD mid JSNumber.nan)) (JSNumber.ofNat 2)
          else sorted.getD mid JSNumber.nan
  | _ => JSNumber.fin 0

/-- The body of the `forEach` callback of `convertToNumber` (dfr.js, lines 46-52)
on one row: the row after the callback, and whether the counter was incremented. -/
def convertRow (colIndex : JSValue) (row : JSValue) : JSValue × Bool :=
  match row with
  | .array cells =>
      if JSNumber.lt colIndex.Number (JSNumber.ofNat cells.length) then
        let value := arrayGet cells colIndex
        if value.typeof != "number" && validNumber value then
          (JSValue.array (arraySet cells colIndex (JSValue.number value.parseFloat)), true)
        else (row, false)
      else (row, false)
  | _ => (row, false)

/-- The function `convertToNumber` (dfr.js, lines 41-56) on a dataframe given by
value: the returned count, and the dataframe as the call leaves it.  The
dataframe left is the one the source leaves, whatever objects the rows are; the
count is the source's when no row object sits at two positions
(`convertToNumberInPlace` is the function with the rows as objects). -/
def convertToNumber (df colIndex : JSValue) : Nat × JSValue :=
  match df with
  | .array rows =>
      if rows.length = 0 ∨ colIndex.typeof ≠ "number" then (0, df)
      else
        let out := rows.foldl
          (fun (acc : Nat × List JSValue) row =>
            let r := convertRow colIndex row
            (if r.2 then acc.1 + 1 else acc.1, acc.2 ++ [r.1]))
          (0, [])
        (out.1, JSValue.array out.2)
  | _ => (0, df)

/-- The rows of a dataframe whose elements are references: what each reference
holds in the store of row objects (`undefined` where the store holds nothing). -/
def deref (store : List JSValue) (df : List Nat) : List JSValue :=
  df.map (fun a => store.getD a JSValue.undefined)

/-- One call of the `forEach` callback of `convertToNumber` (dfr.js, lines 46-52)
on the row object at reference `a`: the object is rewritten in the store, and the
counter goes up when a cell was converted. -/
def convertStep (colIndex : JSValue) (acc : Nat × List JSValue) (a : Nat) :
    Nat × List JSValue :=
  let r := convertRow colIndex (acc.2.getD a JSValue.undefined)
  (if r.2 then acc.1 + 1 else acc.1, acc.2.set a r.1)

/-- The function `convertToNumber` (dfr.js, lines 41-56) with the rows as objects:
the dataframe is an array of references into a store of row objects, so one object
may sit at several positions; the rows are mutated in place.  The result is the
returned count and the store as the call leaves it. -/
def convertToNumberInPlace (store : List JSValue) (df : List Nat) (colIndex : JSValue) :
    Nat × List JSValue :=
  if df.length = 0 ∨ colIndex.typeof ≠ "number" then (0, store)
  else df.foldl (convertStep colIndex) (0, store)

/-- The call `df.filter(row => row[colIndex] === colPattern)`: the callback throws
on a row that is `null` or `undefined`. -/
def filterRows (colIndex colPattern : JSValue) : List JSValue → Except JSError (List JSValue)
  | [] => Except.ok []
  | row :: rest =>
      match getProp row colIndex with
      | Except.error e => Except.error e
      | Except.ok cell =>
          match filterRows colIndex colPattern rest with
          | Except.error e => Except.error e
          | Except.ok kept =>
              Except.ok (if JSValue.strictEq cell colPattern then row :: kept else kept)

/-- The call `exportCols.map(i => row[i])` on an array `exportCols`. -/
def pickCells (row : JSValue) : List JSValue → Except JSError (List JSValue)
  | [] => Except.ok []
  | i :: rest =>
      match getProp row i with
      | Except.error e => Except.error e
      | Except.ok cell =>
          match pickCells row rest with
          | Except.error e => Except.error e
          | Except.ok cells => Except.ok (cell :: cells)

/-- The call `rowsToInclude.map(row => exportCols.map(i => row[i]))`: only an array
has a `map` method, so any other `exportCols` throws in the callback. -/
def projectRows (exportCols : JSValue) : List JSValue → Except JSError (List JSValue)
  | [] => Except.ok []
  | row :: rest =>
      match exportCols with
      | .array cols =>
          match pickCells row cols with
          | Except.error e => Except.error e
          | Except.ok cells =>
              match projectRows exportCols rest with
              | Except.error e => Except.error e
              | Except.ok out => Except.ok (JSValue.array cells :: out)
      | _ => Except.error JSError.typeError

/-- The function `createSlice` (dfr.js, lines 100-105).  The parameter default
`exportCols = []` applies when the argument is `undefined`. -/
def createSlice (df colIndex colPattern exportColsArg : JSValue) : Except JSError JSValue :=
  let exportCols := if exportColsArg = JSValue.undefined then JSValue.array [] else exportColsArg
  match df with
  | .array rows =>
      if rows.length = 0 then Except.ok (JSValue.array [])
      else
        let selected :=
          if JSValue.strictEq colPattern (JSValue.string "*") then Except.ok rows
          else filterRows colIndex colPattern rows
        match selected with
        | Except.error e => Except.error e
        | Except.ok rowsToInclude =>
            match getProp exportCols (JSValue.string "length") with
            | Except.error e => Except.error e
            | Except.ok len =>
                if JSValue.strictEq len (JSValue.number (JSNumber.fin 0)) then
                  Except.ok (JSValue.array rowsToInclude)
                else
                  match projectRows exportCols rowsToInclude with
                  | Except.error e => Except.error e
                  | Except.ok out => Except.ok (JSValue.array out)
  | _ => Except.ok (JSValue.array [])

/-- The call `df.map(row => row[0])` of `flatten`: the callback throws on a row
that is `null` or `undefined`. -/
def firstCells : List JSValue → Except JSError (List JSValue)
  | [] => Except.ok []
  | row :: rest =>
      match getProp row (JSValue.number (JSNumber.fin 0)) with
      | Except.error e => Except.error e
      | Except.ok cell =>
          match firstCells rest with
          | Except.error e => Except.error e
          | Except.ok cells => Except.ok (cell :: cells)

/-- The function `flatten` (dfr.js, lines 59-62). -/
def flatten (df : JSValue) : Except JSError JSValue :=
  match df with
  | .array rows =>
      if rows.length = 0 ∨ (dataDimensions df).2 ≠ 1 then Except.ok (JSValue.array [])
      else
        match firstCells rows with
        | Except.error e => Except.error e
        | Except.ok cells => Except.ok (JSValue.array cells)
  | _ => Except.ok (JSValue.array [])

/-! ## Loading a CSV file -/

/-- The file system, as `loadCSV` sees it: the text of the file at a path, or
`none` when no file exists there.  A path is a file or nothing (directories and
unreadable files are not modelled). -/
abbrev FileSystem := String → Option String

/-- The method `String.prototype.split` with a one-character separator, on the
characters of the string. -/
def splitChars (sep : Char) : List Char → List (List Char)
  | [] => [[]]
  | c :: cs =>
      if c = sep then [] :: splitChars sep cs
      else
        match splitChars sep cs with
        | piece :: pieces => (c :: piece) :: pieces
        | [] => [[c]]

/-- Whether the characters `needle` start the characters `hay`. -/
def startsWithChars : List Char → List Char → Bool
  | [], _ => true
  | _ :: _, [] => false
  | a :: as, b :: bs => a == b && startsWithChars as bs

/-- Whether `needle` occurs in `hay`: `String.prototype.includes`. -/
def containsChars (needle : List Char) : List Char → Bool
  | [] => startsWithChars needle []
  | b :: bs => startsWithChars needle (b :: bs) || containsChars needle bs

/-- SameValueZero, the comparison of `Array.prototype.includes`: like `===`, and
`NaN` is the same as `NaN`. -/
def sameValueZero : JSValue → JSValue → Bool
  | .number a, .number b => decide (a = b)
  | a, b => JSValue.strictEq a b

/-- The call `ignoreRows.includes(rowIndex)`.  An array looks the index up among
its elements; a string looks up the decimal digits of the index in itself; on
`null` and `undefined` the read of `includes` throws, and a number or a boolean
has no such method, so the call throws. -/
def includesIndex (ignoreRows : JSValue) (rowIndex : Nat) : Except JSError Bool :=
  match ignoreRows with
  | .array xs =>
      Except.ok (xs.any (fun x => sameValueZero x (JSValue.number (JSNumber.ofNat rowIndex))))
  | .string s => Except.ok (containsChars (Nat.repr rowIndex).toList s.toList)
  | _ => Except.error JSError.typeError

/-- The call `data.filter((_, rowIndex) => !ignoreRows.includes(rowIndex))`, on the
rows from position `rowIndex` on. -/
def dropIgnored (ignoreRows : JSValue) :
    Nat → List (List String) → Except JSError (List (List String))
  | _, [] => Except.ok []
  | rowIndex, row :: rest =>
      match includesIndex ignoreRows rowIndex with
      | Except.error e => Except.error e
      | Except.ok ignored =>
          match dropIgnored ignoreRows (rowIndex + 1) rest with
          | Except.error e => Except.error e
          | Except.ok kept => Except.ok (if ignored then kept else row :: kept)

/-- The rows `loadCSV` reads from the text of a file (dfr.js, lines 70-73): the
lines that are not blank, each split at its commas. -/
def readRows (text : String) : List (List String) :=
  ((splitChars '\n' text.toList).filter (fun line => decide (0 < (trimChars line).length))).map
    (fun line => (splitChars ',' line).map String.mk)

/-- The function `loadCSV` (dfr.js, lines 65-85); the triple is the returned array
`[filteredData, rows, cols]`.  The parameter defaults apply to arguments that are
`undefined`.  The locals `originalRows` and `originalCols` are computed and never
used.  The read `filteredData[0].length` is of `undefined` when no row is left,
and throws. -/
def loadCSV (fs : FileSystem) (filename : String) (ignoreRowsArg ignoreColsArg : JSValue) :
    Except JSError (List (List String) × Int × Int) :=
  let ignoreRows := if ignoreRowsArg = JSValue.undefined then JSValue.array [] else ignoreRowsArg
  let _ignoreCols := if ignoreColsArg = JSValue.undefined then JSValue.array [] else ignoreColsArg
  match fs filename with
  | none => Except.ok ([], -1, -1)
  | some text =>
      let data := readRows text
      match dropIgnored ignoreRows 0 data with
      | Except.error e => Except.error e
      | Except.ok filteredData =>
          let rows : Int := (filteredData.length : Int) + 1
          if 0 < rows then
            match filteredData[0]? with
            | some first => Except.ok (filteredData, rows, (first.length : Int))
            | none => Except.error JSError.typeError
          else Except.ok (filteredData, rows, 0)

/-- A dataframe of string cells, as a value. -/
def toDataframe (rows : List (List String)) : JSValue :=
  JSValue.array (rows.map (fun row => JSValue.array (row.map JSValue.string)))

/-- Decidable equality of the results of `loadCSV`. -/
instance instDecidableEqLoaded :
    DecidableEq (Except JSError (List (List String) × Int × Int)) := fun a b =>
  match a, b with
  | Except.ok x, Except.ok y =>
      if h : x = y then isTrue (by rw [h]) else isFalse (by intro e; cases e; exact h rfl)
  | Except.error x, Except.error y =>
      if h : x = y then isTrue (by rw [h]) else isFalse (by intro e; cases e; exact h rfl)
  | Except.ok _, Except.error _ => isFalse (by intro e; cases e)
  | Except.error _, Except.ok _ => isFalse (by intro e; cases e)

/-! ## Vocabulary of the specification -/

/-- What the specification calls a valid numeric string: an optional `-`, one or
more digits, and optionally a `.` followed by one or more digits. -/
def SignedDecimal (cs : List Char) : Prop :=
  ∃ sign ip fp : List Char, cs = sign ++ ip ++ fp ∧
    (sign = [] ∨ sign = ['-']) ∧
    (ip ≠ [] ∧ ∀ c ∈ ip, c ∈ asciiDigits) ∧
    (fp = [] ∨ ∃ fd : List Char, fp = '.' :: fd ∧ fd ≠ [] ∧ ∀ c ∈ fd, c ∈ asciiDigits)

/-- The number a valid numeric string denotes: its digits read as a decimal
integer, divided by ten for each digit after the `.`, negated after a leading
`-`, and rounded to the nearest double. -/
def decimalValue (cs : List Char) : JSNumber :=
  ofDecimal (decide (cs.head? = some '-')) (digitsToNat (cs.filter isDigitChar))
    (-(((cs.dropWhile (fun c => decide (c ≠ '.'))).tail.length : Nat) : Int))

/-- The numeric value of a valid element: a number is itself, a valid string is
the decimal it spells. -/
def numericValue : JSValue → JSNumber
  | .number n => n
  | .string s => decimalValue s.toList
  | _ => JSNumber.nan

/-- The order `a <= b` of JavaScript numbers (`false` whenever an operand is
`NaN`). -/
def JSNumber.le : JSNumber → JSNumber → Bool
  | .nan, _ => false
  | _, .nan => false
  | .negInf, _ => true
  | _, .posInf => true
  | .posInf, _ => false
  | _, .negInf => false
  | .fin a, .fin b => decide (a ≤ b)

/-- A row whose cell at `colIndex` the specification has `coerceColumn` convert: a
sequence longer than `colIndex` whose cell there is a string that is a valid
number. -/
def coercible (colIndex : JSNumber) (row : JSValue) : Bool :=
  match row with
  | .array cells =>
      JSNumber.lt colIndex (JSNumber.ofNat cells.length) &&
        (match arrayGet cells (JSValue.number colIndex) with
          | .string s => validNumber (JSValue.string s)
          | _ => false)
  | _ => false

/-- The row as the specification has `coerceColumn` leave it: the cell at
`colIndex` replaced by its numeric value when the row is `coercible`, the row as
it was otherwise. -/
def coercedRow (colIndex : JSNumber) (row : JSValue) : JSValue :=
  if coercible colIndex row then
    JSValue.array (arraySet row.elems (JSValue.number colIndex)
      (JSValue.number (numericValue (arrayGet row.elems (JSValue.number colIndex)))))
  else row

/-- A blank line: empty, or white space only. -/
def isBlank (line : List Char) : Bool := line.all isStrWhiteSpaceChar

/-- The rows of a CSV text, as the specification describes them: the text split
at newlines, blank lines dropped, each remaining line split at its commas into
raw cells. -/
def csvRows (text : String) : List (List String) :=
  ((splitChars '\n' text.toList).filter (fun line => !isBlank line)).map
    (fun line => (splitChars ',' line).map String.mk)

/-- The rows left when those whose position, counted from `start`, is among
`ignore` are dropped. -/
def keepRows (ignore : List JSValue) (start : Nat) (rows : List (List String)) :
    List (List String) :=
  ((rows.enumFrom start).filter
    (fun p => decide (JSValue.number (JSNumber.ofNat p.1) ∉ ignore))).map Prod.snd

/-- The column at index `k` of a dataframe: the cells at `k` of the rows long
enough to have one, in row order. -/
def column (k : Nat) (rows : List JSValue) : List JSValue :=
  rows.filterMap (fun row => row.elems[k]?)

/-- A magnitude with at most 53 significant bits: a multiple of `2^j` below
`2^(53+j)`. -/
def JSNumber.Fits (j a : Nat) : Prop := 2 ^ j ∣ a ∧ a < 2 ^ (53 + j)

/-- Whether a number is finite: neither `NaN` nor an infinity. -/
def JSNumber.isFinite : JSNumber → Bool
  | .fin _ => true
  | _ => false

/-- Whether a number of the model is a JavaScript number: a finite one is, when
rounding it to a double leaves it as it is. -/
def JSNumber.isDouble : JSNumber → Bool
  | .fin m => decide (JSNumber.roundInt m = JSNumber.fin m)
  | _ => true

/-- The largest finite double, `Number.MAX_VALUE`: `(2^53 - 1) * 2^971`. -/
def JSNumber.maxValue : JSNumber := JSNumber.fin (((2 ^ 53 - 1) * 2 ^ 971 * JSNumber.one : Nat) : Int)

/-- The median of a sequence that is already sorted: `0` when it is empty, the
middle element when its length is odd, half the sum of the two middle elements
when it is even. -/
def medianOfSorted (sorted : List JSNumber) : JSNumber :=
  if sorted.length = 0 then JSNumber.fin 0
  else if sorted.length % 2 = 0 then
    JSNumber.div (JSNumber.add (sorted.getD (sorted.length / 2 - 1) JSNumber.nan)
      (sorted.getD (sorted.length / 2) JSNumber.nan)) (JSNumber.ofNat 2)
  else sorted.getD (sorted.length / 2) JSNumber.nan

/-! # Theorems -/

/-! ## The regular expression, characterised -/

open RegularExpression

theorem mem_char (a : Char) (x : List Char) :
    x ∈ (RegularExpression.char a).matches' ↔ x = [a] := Iff.rfl

theorem mem_one' (x : List Char) :
    x ∈ (1 : RegularExpression Char).matches' ↔ x = [] := Iff.rfl

theorem mem_reDigit (x : List Char) : x ∈ reDigit.matches' ↔ ∃ c ∈ asciiDigits, x = [c] := by
  simp only [reDigit, asciiDigits, List.map, List.foldr, matches'_add, Language.mem_add,
    mem_char, List.mem_cons, List.mem_singleton, List.not_mem_nil, or_false, exists_eq_or_imp,
    exists_eq_left, false_and, exists_false]
  have h0 : x ∉ (0 : RegularExpression Char).matches' := fun h => h
  simp only [h0, or_false]

theorem mem_star_reDigit (x : List Char) :
    x ∈ (star reDigit).matches' ↔ ∀ c ∈ x, c ∈ asciiDigits := by
  rw [matches'_star, Language.mem_kstar]
  constructor
  · rintro ⟨L, rfl, hL⟩ c hc
    rw [List.mem_flatten] at hc
    obtain ⟨l, hl, hcl⟩ := hc
    obtain ⟨d, hd, rfl⟩ := (mem_reDigit l).1 (hL l hl)
    simp at hcl
    rw [hcl]; exact hd
  · intro h
    refine ⟨x.map (fun c => [c]), ?_, ?_⟩
    · clear h
      induction x with
      | nil => rfl
      | cons a t ih => simpa [List.flatten] using ih
    · intro y hy
      rw [List.mem_map] at hy
      obtain ⟨c, hc, rfl⟩ := hy
      exact (mem_reDigit _).2 ⟨c, h c hc, rfl⟩

theorem mem_rePlus_reDigit (x : List Char) :
    x ∈ (rePlus reDigit).matches' ↔ x ≠ [] ∧ ∀ c ∈ x, c ∈ asciiDigits := by
  rw [rePlus, matches'_mul, Language.mem_mul]
  constructor
  · rintro ⟨a, ha, b, hb, rfl⟩
    obtain ⟨d, hd, rfl⟩ := (mem_reDigit a).1 ha
    refine ⟨by simp, ?_⟩
    intro c hc
    simp at hc
    rcases hc with rfl | hc
    · exact hd
    · exact (mem_star_reDigit b).1 hb c hc
  · rintro ⟨hne, h⟩
    cases x with
    | nil => exact absurd rfl hne
    | cons a t =>
      refine ⟨[a], (mem_reDigit _).2 ⟨a, h a (by simp), rfl⟩, t, ?_, rfl⟩
      exact (mem_star_reDigit t).2 (fun c hc => h c (by simp [hc]))

theorem pattern_matches_iff (cs : List Char) :
    pattern.rmatch cs = true ↔ SignedDecimal cs := by
  rw [rmatch_iff_matches', pattern, matches'_mul, Language.mem_mul]
  simp only [reOpt, matches'_add, matches'_mul, Language.mem_mul, Language.mem_add,
    mem_rePlus_reDigit, SignedDecimal]
  constructor
  · rintro ⟨sign, hs, rest, ⟨ip, hip, fp, hfp, rfl⟩, rfl⟩
    refine ⟨sign, ip, fp, by simp, ?_, hip, ?_⟩
    · rcases hs with hs | hs
      · left; exact hs
      · right; exact hs
    · rcases hfp with hfp | ⟨dot, hdot, fd, hfd, rfl⟩
      · left; exact hfp
      · right
        have : dot = ['.'] := hdot
        subst this
        exact ⟨fd, rfl, hfd⟩
  · rintro ⟨sign, ip, fp, rfl, hs, hip, hfp⟩
    refine ⟨sign, ?_, ip ++ fp, ⟨ip, hip, fp, ?_, rfl⟩, by simp⟩
    · rcases hs with hs | hs
      · left; exact hs
      · right; exact hs
    · rcases hfp with hfp | ⟨fd, rfl, hfd⟩
      · left; exact hfp
      · right; exact ⟨['.'], rfl, fd, hfd, rfl⟩


theorem SignedDecimal.ne_nil {cs : List Char} (h : SignedDecimal cs) : cs ≠ [] := by
  obtain ⟨sign, ip, fp, rfl, -, ⟨hip, -⟩, -⟩ := h
  simp [hip]

theorem SignedDecimal.chars {cs : List Char} (h : SignedDecimal cs) :
    ∀ c ∈ cs, c = '-' ∨ c = '.' ∨ c ∈ asciiDigits := by
  obtain ⟨sign, ip, fp, rfl, hs, ⟨-, hip⟩, hfp⟩ := h
  intro c hc
  simp only [List.mem_append] at hc
  rcases hc with (hc | hc) | hc
  · rcases hs with rfl | rfl
    · simp at hc
    · left; simpa using hc
  · exact Or.inr (Or.inr (hip c hc))
  · rcases hfp with rfl | ⟨fd, rfl, -, hfd⟩
    · simp at hc
    · simp only [List.mem_cons] at hc
      rcases hc with rfl | hc
      · exact Or.inr (Or.inl rfl)
      · exact Or.inr (Or.inr (hfd c hc))

theorem validNumber_string (s : String) :
    validNumber (JSValue.string s) = true ↔ SignedDecimal s.toList := by
  rw [← pattern_matches_iff]
  simp [validNumber, JSValue.typeof, patternTest]

/-- C1: `validNumber v` holds exactly when `v` is a number, or a string that is,
in its entirety, an optional `-`, one or more ASCII digits and optionally a `.`
followed by one or more ASCII digits.  In particular it fails on every value
that is neither a number nor a string (`null`, `undefined`, arrays), and on every
string that is empty, contains white space, a comma or an exponent letter, or is
`NaN` or `Infinity`. -/
theorem validNumber_spec :
    (∀ v : JSValue, validNumber v = true ↔
      (v.typeof = "number" ∨ ∃ s : String, v = JSValue.string s ∧ SignedDecimal s.toList)) ∧
    (∀ v : JSValue, v.typeof ≠ "number" → v.typeof ≠ "string" → validNumber v = false) ∧
    validNumber JSValue.null = false ∧ validNumber JSValue.undefined = false ∧
    (∀ xs : List JSValue, validNumber (JSValue.array xs) = false) ∧
    (∀ s : String, s.toList = [] → validNumber (JSValue.string s) = false) ∧
    (∀ (s : String) (c : Char), c ∈ s.toList →
      (isStrWhiteSpaceChar c = true ∨ c = ',' ∨ c = 'e' ∨ c = 'E') →
      validNumber (JSValue.string s) = false) ∧
    validNumber (JSValue.string "NaN") = false ∧
    validNumber (JSValue.string "Infinity") = false := by
  refine ⟨?_, ?_, by decide, by decide, ?_, ?_, ?_, by decide, by decide⟩
  · intro v
    cases v with
    | string s =>
      rw [validNumber_string]
      constructor
      · intro h; exact Or.inr ⟨s, rfl, h⟩
      · rintro (h | ⟨t, ht, h⟩)
        · simp [JSValue.typeof] at h
        · cases ht; exact h
    | number n => simp [validNumber, JSValue.typeof]
    | undefined => simp [validNumber, JSValue.typeof, patternTest]
    | null => simp [validNumber, JSValue.typeof, patternTest]
    | boolean b => simp [validNumber, JSValue.typeof, patternTest]
    | array xs => simp [validNumber, JSValue.typeof, patternTest]
  · intro v h1 h2
    cases v <;> simp_all [validNumber, JSValue.typeof, patternTest]
  · intro xs; simp [validNumber, JSValue.typeof, patternTest]
  · intro s hs
    rw [Bool.eq_false_iff]
    intro h
    exact ((validNumber_string s).1 h).ne_nil hs
  · intro s c hc hbad
    rw [Bool.eq_false_iff]
    intro h
    have hch := ((validNumber_string s).1 h).chars c hc
    simp only [asciiDigits, List.mem_cons, List.mem_singleton, List.not_mem_nil, or_false] at hch
    rcases hch with rfl | rfl | rfl | rfl | rfl | rfl | rfl | rfl | rfl | rfl | rfl | rfl <;>
      revert hbad <;> decide

/-! ## Shape -/

/-- C2: `dataDimensions` returns `(-1, -1)` when the input is absent or not a
sequence, `(0, -1)` on the empty sequence, and otherwise `(n, c)` with `n` the
number of top-level elements and `c` the length of the first element when that
element is a sequence, `-1` when it is not. -/
theorem dataDimensions_spec :
    (∀ data : JSValue, data.isArray = false → dataDimensions data = (-1, -1)) ∧
    dataDimensions JSValue.undefined = (-1, -1) ∧
    dataDimensions JSValue.null = (-1, -1) ∧
    dataDimensions (JSValue.array []) = (0, -1) ∧
    (∀ (ys xs : List JSValue),
      dataDimensions (JSValue.array (JSValue.array ys :: xs)) =
        (((JSValue.array ys :: xs).length : Int), (ys.length : Int))) ∧
    (∀ (x : JSValue) (xs : List JSValue), x.isArray = false →
      dataDimensions (JSValue.array (x :: xs)) = (((x :: xs).length : Int), -1)) := by
  refine ⟨?_, by decide, by decide, by decide, ?_, ?_⟩
  · intro data h
    cases data <;> simp_all [dataDimensions, JSValue.isArray, JSValue.truthy]
  · intro ys xs
    simp [dataDimensions, JSValue.truthy, JSValue.isArray, JSValue.elems]
  · intro x xs h
    simp [dataDimensions, JSValue.truthy, h]

/-- C3, as stated, fails: on `[[]]` the column count is `0`, not `-1`. -/
theorem dataDimensions_emptyFirstRow_counterexample :
    (dataDimensions (JSValue.array [JSValue.array []])).2 = 0 ∧
    (dataDimensions (JSValue.array [JSValue.array []])).2 ≠ -1 := by
  decide

/-- C3, amended: for every non-empty sequence of rows whose first row is an empty
sequence, the returned column count is `0`, the length of that row, and the row
count is the number of rows. -/
theorem dataDimensions_emptyFirstRow (xs : List JSValue) :
    dataDimensions (JSValue.array (JSValue.array [] :: xs)) = ((xs.length : Int) + 1, 0) := by
  simp [dataDimensions, JSValue.truthy, JSValue.isArray, JSValue.elems]


/-! ## Numeric value of valid strings -/

theorem isDigitChar_iff (c : Char) : isDigitChar c = true ↔ c ∈ asciiDigits := by
  simp [isDigitChar]

theorem takeWhile_append_all {p : Char → Bool} (l r : List Char) (h : ∀ c ∈ l, p c = true) :
    (l ++ r).takeWhile p = l ++ r.takeWhile p := by
  induction l with
  | nil => rfl
  | cons a t ih =>
    have ha : p a = true := h a (by simp)
    simp [List.takeWhile, ha, ih (fun c hc => h c (by simp [hc]))]

theorem dropWhile_append_all {p : Char → Bool} (l r : List Char) (h : ∀ c ∈ l, p c = true) :
    (l ++ r).dropWhile p = r.dropWhile p := by
  induction l with
  | nil => rfl
  | cons a t ih =>
    have ha : p a = true := h a (by simp)
    simp [List.dropWhile, ha, ih (fun c hc => h c (by simp [hc]))]

theorem takeWhile_all {p : Char → Bool} (l : List Char) (h : ∀ c ∈ l, p c = true) :
    l.takeWhile p = l := by
  simpa using takeWhile_append_all l [] h

theorem dropWhile_all {p : Char → Bool} (l : List Char) (h : ∀ c ∈ l, p c = true) :
    l.dropWhile p = [] := by
  simpa using dropWhile_append_all l [] h

theorem filter_all {p : Char → Bool} (l : List Char) (h : ∀ c ∈ l, p c = true) :
    l.filter p = l := by
  rw [List.filter_eq_self]; exact h

theorem digit_ne {c : Char} (h : c ∈ asciiDigits) :
    c ≠ '-' ∧ c ≠ '+' ∧ c ≠ '.' ∧ c ≠ 'I' ∧ isStrWhiteSpaceChar c = false := by
  simp only [asciiDigits, List.mem_cons, List.mem_singleton, List.not_mem_nil, or_false] at h
  rcases h with rfl | rfl | rfl | rfl | rfl | rfl | rfl | rfl | rfl | rfl <;> decide

/-- The scanner reads a digit string followed by an optional fraction to its end. -/
theorem scanUnsigned_digits (neg : Bool) (ip fp : List Char)
    (hne : ip ≠ []) (hip : ∀ c ∈ ip, c ∈ asciiDigits)
    (hfp : fp = [] ∨ ∃ fd : List Char, fp = '.' :: fd ∧ fd ≠ [] ∧ ∀ c ∈ fd, c ∈ asciiDigits) :
    scanUnsigned neg (ip ++ fp) =
      some (ofDecimal neg (digitsToNat ((ip ++ fp).filter isDigitChar))
        (-((((ip ++ fp).dropWhile (fun c => decide (c ≠ '.'))).tail.length : Nat) : Int)), []) := by
  have hipd : ∀ c ∈ ip, isDigitChar c = true := fun c hc => (isDigitChar_iff c).2 (hip c hc)
  have hipdot : ∀ c ∈ ip, (fun c => decide (c ≠ '.')) c = true := by
    intro c hc; simpa using (digit_ne (hip c hc)).2.2.1
  obtain ⟨a, t, rfl⟩ := List.exists_cons_of_ne_nil hne
  have haI : a ≠ 'I' := (digit_ne (hip a (by simp))).2.2.2.1
  have hinf : ¬ ((a :: t ++ fp).take 8 = ['I', 'n', 'f', 'i', 'n', 'i', 't', 'y']) := by
    intro h
    simp only [List.cons_append, List.take_succ_cons] at h
    exact haI (List.cons.inj h).1
  rcases hfp with rfl | ⟨fd, rfl, hfdne, hfd⟩
  · simp only [List.append_nil] at *
    have h1 : (a :: t).takeWhile isDigitChar = a :: t := takeWhile_all _ hipd
    have h2 : (a :: t).dropWhile isDigitChar = [] := dropWhile_all _ hipd
    have h3 : (a :: t).filter isDigitChar = a :: t := filter_all _ hipd
    have h4 : (a :: t).dropWhile (fun c => decide (c ≠ '.')) = [] := dropWhile_all _ hipdot
    simp only [scanUnsigned, hinf, if_false, h1, h2, h3, h4, scanExponent]
    simp
  · have hfdd : ∀ c ∈ fd, isDigitChar c = true := fun c hc => (isDigitChar_iff c).2 (hfd c hc)
    have h1 : (a :: t ++ '.' :: fd).takeWhile isDigitChar = a :: t := by
      rw [takeWhile_append_all _ _ hipd]; simp [List.takeWhile, isDigitChar, asciiDigits]
    have h2 : (a :: t ++ '.' :: fd).dropWhile isDigitChar = '.' :: fd := by
      rw [dropWhile_append_all _ _ hipd]; simp [List.dropWhile, isDigitChar, asciiDigits]
    have h3 : (a :: t ++ '.' :: fd).filter isDigitChar = a :: t ++ fd := by
      rw [List.filter_append, filter_all _ hipd]
      simp [List.filter, isDigitChar, asciiDigits, filter_all fd hfdd]
    have h4 : (a :: t ++ '.' :: fd).dropWhile (fun c => decide (c ≠ '.')) = '.' :: fd := by
      rw [dropWhile_append_all _ _ hipdot]; simp [List.dropWhile]
    have h5 : fd.takeWhile isDigitChar = fd := takeWhile_all _ hfdd
    have h6 : fd.dropWhile isDigitChar = [] := dropWhile_all _ hfdd
    simp only [scanUnsigned, hinf, if_false, h1, h2, h3, h4, h5, h6, scanExponent]
    simp

theorem scanDecimal_signedDecimal {cs : List Char} (h : SignedDecimal cs) :
    scanDecimal cs = some (decimalValue cs, []) := by
  obtain ⟨sign, ip, fp, rfl, hs, ⟨hne, hip⟩, hfp⟩ := h
  obtain ⟨a, t, rfl⟩ := List.exists_cons_of_ne_nil hne
  have ha := digit_ne (hip a (by simp))
  rcases hs with rfl | rfl
  · have := scanUnsigned_digits false (a :: t) fp (by simp) hip hfp
    simp only [List.nil_append, List.cons_append] at this ⊢
    simp only [scanDecimal, ha.1, ha.2.1, if_false, decimalValue, List.head?_cons]
    rw [this]
    simp [ha.1]
  · have := scanUnsigned_digits true (a :: t) fp (by simp) hip hfp
    simp only [List.cons_append, List.nil_append, List.singleton_append] at this ⊢
    simp only [scanDecimal, if_true, decimalValue, List.head?_cons]
    rw [this]
    simp [List.filter, List.dropWhile, isDigitChar, asciiDigits]

theorem trimChars_signedDecimal {cs : List Char} (h : SignedDecimal cs) : trimChars cs = cs := by
  have hws : ∀ c ∈ cs, isStrWhiteSpaceChar c = false := by
    intro c hc
    rcases h.chars c hc with rfl | rfl | hd
    · decide
    · decide
    · exact (digit_ne hd).2.2.2.2
  have h1 : cs.dropWhile isStrWhiteSpaceChar = cs := by
    cases cs with
    | nil => rfl
    | cons a t => simp [List.dropWhile, hws a (by simp)]
  have h2 : cs.rdropWhile isStrWhiteSpaceChar = cs := by
    rw [List.rdropWhile_eq_self_iff]
    intro hl
    simp [hws _ (List.getLast_mem hl)]
  rw [trimChars, h1, h2]

/-- The function `Number` reads a valid numeric string as the decimal it spells. -/
theorem Number_validString (s : String) (h : validNumber (JSValue.string s) = true) :
    (JSValue.string s).Number = decimalValue s.toList := by
  have hsd := (validNumber_string s).1 h
  simp only [JSValue.Number, stringToNumber, trimChars_signedDecimal hsd,
    scanDecimal_signedDecimal hsd, hsd.ne_nil, if_false]

/-- The function `parseFloat` reads a valid numeric string as the decimal it
spells. -/
theorem parseFloat_validString (s : String) (h : validNumber (JSValue.string s) = true) :
    (JSValue.string s).parseFloat = decimalValue s.toList := by
  have hsd := (validNumber_string s).1 h
  have hws : s.toList.dropWhile isStrWhiteSpaceChar = s.toList := by
    have := trimChars_signedDecimal hsd
    obtain ⟨a, t, hat⟩ := List.exists_cons_of_ne_nil hsd.ne_nil
    rw [hat]
    have ha : isStrWhiteSpaceChar a = false := by
      rcases hsd.chars a (by rw [hat]; simp) with rfl | rfl | hd
      · decide
      · decide
      · exact (digit_ne hd).2.2.2.2
    simp [List.dropWhile, ha]
  simp only [JSValue.parseFloat, hws, scanDecimal_signedDecimal hsd]

/-- A valid element is a number or a string, and `Number` gives it its numeric
value. -/
theorem Number_valid (v : JSValue) (h : validNumber v = true) : v.Number = numericValue v := by
  cases v with
  | number n => rfl
  | string s => exact Number_validString s h
  | undefined => simp [validNumber, JSValue.typeof, patternTest] at h
  | null => simp [validNumber, JSValue.typeof, patternTest] at h
  | boolean b => simp [validNumber, JSValue.typeof, patternTest] at h
  | array xs => simp [validNumber, JSValue.typeof, patternTest] at h

theorem validNums_eq (xs : List JSValue) :
    validNums xs = (xs.filter validNumber).map numericValue := by
  rw [validNums]
  apply List.map_congr_left
  intro v hv
  exact Number_valid v (List.mem_filter.1 hv).2


/-! ## Rounding keeps the sign -/

namespace JSNumber

theorem two_pow_excessBits_le (fuel n : Nat) (hn : 1 ≤ n) : 2 ^ excessBits fuel n ≤ n := by
  induction fuel generalizing n with
  | zero => simpa [excessBits] using hn
  | succ f ih =>
    rw [excessBits]
    split
    · simpa using hn
    · rename_i h
      have h53 : 2 ^ 53 ≤ n := Nat.le_of_not_lt h
      have h2 : 1 ≤ n / 2 := by
        have : (2 : Nat) ≤ n := le_trans (by norm_num) h53
        omega
      have := ih (n / 2) h2
      rw [pow_succ]
      omega

theorem le_halfEven (p d : Nat) : p / d ≤ halfEven p d := by
  unfold halfEven
  simp only
  split
  · exact le_refl _
  · split
    · exact Nat.le_succ _
    · split
      · exact le_refl _
      · exact Nat.le_succ _

theorem roundMag_pos (p : Nat) (hp : 0 < p) : 0 < roundMag p 1 := by
  unfold roundMag
  simp only [Nat.div_one, one_mul]
  have hk := two_pow_excessBits_le p p hp
  have h1 : 1 ≤ p / 2 ^ excessBits p p := (Nat.one_le_div_iff (by positivity)).2 hk
  have h2 := le_halfEven p (2 ^ excessBits p p)
  have : 0 < halfEven p (2 ^ excessBits p p) := by omega
  positivity

theorem roundMag_zero (d : Nat) : roundMag 0 d = 0 := by
  simp [roundMag, halfEven, excessBits]

theorem one_pos : 0 < one := by unfold one; positivity

theorem overflow_pos : 0 < overflow := by unfold overflow; positivity

theorem ofUnits_zero (neg : Bool) (d : Nat) : ofUnits neg 0 d = fin 0 := by
  have h := overflow_pos
  unfold ofUnits
  rw [roundMag_zero]
  simp only
  rw [if_neg (by omega)]
  cases neg <;> rfl

theorem ofNat_zero : ofNat 0 = fin 0 := by
  unfold ofNat ofRat
  rw [show (((0 : Nat) : Int)).natAbs * one = 0 by simp]
  exact ofUnits_zero _ _

theorem ofNat_ne_zero (n : Nat) (hn : 0 < n) : ofNat n ≠ fin 0 := by
  have hp : 0 < roundMag (n * one) 1 := roundMag_pos _ (Nat.mul_pos hn one_pos)
  simp only [ofNat, ofRat, ofUnits, Int.natAbs_ofNat]
  split
  · split <;> simp
  · simp
    omega

end JSNumber


/-! ## Aggregates -/

theorem findTotal_array (xs : List JSValue) :
    findTotal (JSValue.array xs) =
      ((xs.filter validNumber).map numericValue).foldl JSNumber.add (JSNumber.fin 0) := by
  rw [← validNums_eq]
  cases xs with
  | nil => rfl
  | cons a t => simp [findTotal]

theorem filter_validNumber_eq_nil {xs : List JSValue} (h : ∀ x ∈ xs, validNumber x = false) :
    xs.filter validNumber = [] := by
  rw [List.filter_eq_nil_iff]
  intro x hx
  simp [h x hx]

/-- C4: on a sequence, `findTotal` is the total, added up from `0` in sequence
order, of the numeric values of exactly the elements for which `validNumber`
holds (a number is itself, a valid string the decimal it spells); an element that
is not valid changes nothing; and the result is `0` when the input is not a
sequence, is empty, or has no valid element. -/
theorem findTotal_spec :
    (∀ xs : List JSValue, findTotal (JSValue.array xs) =
      ((xs.filter validNumber).map numericValue).foldl JSNumber.add (JSNumber.fin 0)) ∧
    (∀ (xs ys : List JSValue) (v : JSValue), validNumber v = false →
      findTotal (JSValue.array (xs ++ v :: ys)) = findTotal (JSValue.array (xs ++ ys))) ∧
    (∀ v : JSValue, v.isArray = false → findTotal v = JSNumber.fin 0) ∧
    findTotal (JSValue.array []) = JSNumber.fin 0 ∧
    (∀ xs : List JSValue, (∀ x ∈ xs, validNumber x = false) →
      findTotal (JSValue.array xs) = JSNumber.fin 0) := by
  refine ⟨findTotal_array, ?_, ?_, rfl, ?_⟩
  · intro xs ys v hv
    rw [findTotal_array, findTotal_array]
    simp [List.filter_cons, hv]
  · intro v hv
    cases v <;> first | rfl | simp [JSValue.isArray] at hv
  · intro xs h
    rw [findTotal_array, filter_validNumber_eq_nil h]
    rfl

/-- The specification's example `sum(["1","2",3]) == 6`. -/
theorem findTotal_example :
    findTotal (JSValue.array [JSValue.string "1", JSValue.string "2",
      JSValue.number (JSNumber.ofInt 3)]) = JSNumber.ofInt 6 := by
  decide!

/-- C5: on a sequence with `k > 0` valid elements `calculateMean` is
`findTotal` of the sequence divided by `k`, a divisor that is not zero; the
result is `0` when the input is not a sequence, is empty, or has no valid
element. -/
theorem calculateMean_spec :
    (∀ xs : List JSValue, 0 < (xs.filter validNumber).length →
      calculateMean (JSValue.array xs) =
        JSNumber.div (findTotal (JSValue.array xs))
          (JSNumber.ofNat (xs.filter validNumber).length) ∧
      JSNumber.ofNat (xs.filter validNumber).length ≠ JSNumber.fin 0) ∧
    (∀ v : JSValue, v.isArray = false → calculateMean v = JSNumber.fin 0) ∧
    calculateMean (JSValue.array []) = JSNumber.fin 0 ∧
    (∀ xs : List JSValue, (xs.filter validNumber).length = 0 →
      calculateMean (JSValue.array xs) = JSNumber.fin 0) := by
  refine ⟨?_, ?_, rfl, ?_⟩
  · intro xs hk
    refine ⟨?_, JSNumber.ofNat_ne_zero _ hk⟩
    have hlen : (validNums xs).length = (xs.filter validNumber).length := by
      simp [validNums]
    have hxs : xs.length ≠ 0 := by
      intro h0
      rw [List.length_eq_zero] at h0
      subst h0
      simp at hk
    have hv : (validNums xs).length ≠ 0 := by omega
    simp only [calculateMean, findTotal, hxs, if_false, hlen]
    rw [if_neg (by omega)]
  · intro v hv
    cases v <;> first | rfl | simp [JSValue.isArray] at hv
  · intro xs h
    have hlen : (validNums xs).length = 0 := by simpa [validNums] using h
    simp only [calculateMean, hlen, if_true]
    split <;> rfl

/-- The specification's example `mean([1,2,"3",x]) == 2` with `x` not a number. -/
theorem calculateMean_example :
    calculateMean (JSValue.array [JSValue.number (JSNumber.ofInt 1),
      JSValue.number (JSNumber.ofInt 2), JSValue.string "3", JSValue.string "x"]) =
      JSNumber.ofInt 2 := by
  decide!


/-! ## Sorting -/

namespace JSNumber

theorem lt_zero_roundInt (m : Int) : lt (fin 0) (roundInt m) = true ↔ 0 < m := by
  unfold roundInt ofUnits
  by_cases hm : m < 0
  · have h0 : ¬ 0 < m := by omega
    simp only [hm, decide_True, if_true, h0, iff_false]
    split
    · simp [lt]
    · simp [lt]
  · simp only [hm, decide_False, Bool.false_eq_true, if_false]
    by_cases h0 : m = 0
    · subst h0
      have h := overflow_pos
      have hz : roundMag 0 1 = 0 := roundMag_zero 1
      simp only [Int.natAbs_zero, hz]
      rw [if_neg (by omega)]
      simp [lt]
    · have hpos : 0 < m := by omega
      have hp : 0 < roundMag m.natAbs 1 := roundMag_pos _ (by omega)
      simp only [hpos, iff_true]
      split
      · simp [lt]
      · simp [lt]
        omega

theorem lt_zero_sub {x y : JSNumber} (hx : x ≠ nan) (hy : y ≠ nan) :
    lt (fin 0) (sub x y) = true ↔ lt y x = true := by
  cases x with
  | fin a =>
    cases y with
    | fin b =>
      rw [sub, lt_zero_roundInt]
      simp [lt]
    | nan => exact absurd rfl hy
    | posInf => simp [sub, lt]
    | negInf => simp [sub, lt]
  | nan => exact absurd rfl hx
  | posInf => cases y <;> simp_all [sub, lt]
  | negInf => cases y <;> simp_all [sub, lt]

theorem le_of_not_lt {x y : JSNumber} (hx : x ≠ nan) (hy : y ≠ nan)
    (h : lt y x = false) : le x y = true := by
  cases x <;> cases y <;> simp_all [le, lt]

theorem le_of_lt {x y : JSNumber} (h : lt y x = true) : le y x = true := by
  cases x <;> cases y <;> simp_all [le, lt]
  omega

theorem le_trans {x y z : JSNumber} (h1 : le x y = true) (h2 : le y z = true) :
    le x z = true := by
  cases x <;> cases y <;> cases z <;> simp_all [le]
  omega

end JSNumber

theorem sortInsert_perm (x : JSNumber) (l : List JSNumber) : (sortInsert x l).Perm (x :: l) := by
  induction l with
  | nil => exact List.Perm.refl _
  | cons y ys ih =>
    rw [sortInsert]
    split
    · exact ((ih.cons y).trans (List.Perm.swap x y ys))
    · exact List.Perm.refl _

theorem sortNumbers_perm (l : List JSNumber) : (sortNumbers l).Perm l := by
  induction l with
  | nil => exact List.Perm.refl _
  | cons x xs ih =>
    rw [sortNumbers]
    exact (sortInsert_perm x _).trans (ih.cons x)

theorem sortInsert_sorted (x : JSNumber) (l : List JSNumber) (hx : x ≠ JSNumber.nan)
    (hl : ∀ v ∈ l, v ≠ JSNumber.nan)
    (hs : l.Pairwise (fun a b => JSNumber.le a b = true)) :
    (sortInsert x l).Pairwise (fun a b => JSNumber.le a b = true) := by
  induction l with
  | nil => simp [sortInsert]
  | cons y ys ih =>
    have hy : y ≠ JSNumber.nan := hl y (by simp)
    have hys : ∀ v ∈ ys, v ≠ JSNumber.nan := fun v hv => hl v (by simp [hv])
    rw [List.pairwise_cons] at hs
    rw [sortInsert]
    split
    · rename_i hpos
      have hlt : JSNumber.lt y x = true := (JSNumber.lt_zero_sub hx hy).1 hpos
      rw [List.pairwise_cons]
      refine ⟨?_, ih hys hs.2⟩
      intro b hb
      rcases (List.mem_cons.1 ((sortInsert_perm x ys).mem_iff.1 hb)) with rfl | hb
      · exact JSNumber.le_of_lt hlt
      · exact hs.1 b hb
    · rename_i hpos
      have hlt : JSNumber.lt y x = false := by
        rw [Bool.eq_false_iff]
        exact fun h => hpos ((JSNumber.lt_zero_sub hx hy).2 h)
      have hxy : JSNumber.le x y = true := JSNumber.le_of_not_lt hx hy hlt
      rw [List.pairwise_cons]
      refine ⟨?_, List.pairwise_cons.2 hs⟩
      intro b hb
      rcases List.mem_cons.1 hb with rfl | hb
      · exact hxy
      · exact JSNumber.le_trans hxy (hs.1 b hb)

theorem sortNumbers_sorted (l : List JSNumber) (hl : ∀ v ∈ l, v ≠ JSNumber.nan) :
    (sortNumbers l).Pairwise (fun a b => JSNumber.le a b = true) := by
  induction l with
  | nil => simp [sortNumbers]
  | cons x xs ih =>
    have hxs : ∀ v ∈ xs, v ≠ JSNumber.nan := fun v hv => hl v (by simp [hv])
    rw [sortNumbers]
    refine sortInsert_sorted x _ (hl x (by simp)) ?_ (ih hxs)
    intro v hv
    exact hxs v ((sortNumbers_perm xs).mem_iff.1 hv)

theorem calculateMedian_array (xs : List JSValue)
    (hk : 0 < ((xs.filter validNumber).map numericValue).length) :
    calculateMedian (JSValue.array xs) =
      if (sortNumbers ((xs.filter validNumber).map numericValue)).length % 2 = 0 then
        JSNumber.div (JSNumber.add
          ((sortNumbers ((xs.filter validNumber).map numericValue)).getD
            ((sortNumbers ((xs.filter validNumber).map numericValue)).length / 2 - 1)
            JSNumber.nan)
          ((sortNumbers ((xs.filter validNumber).map numericValue)).getD
            ((sortNumbers ((xs.filter validNumber).map numericValue)).length / 2)
            JSNumber.nan)) (JSNumber.ofNat 2)
      else (sortNumbers ((xs.filter validNumber).map numericValue)).getD
            ((sortNumbers ((xs.filter validNumber).map numericValue)).length / 2)
            JSNumber.nan := by
  rw [← validNums_eq] at hk ⊢
  have hxs : xs.length ≠ 0 := by
    intro h0
    rw [List.length_eq_zero] at h0
    subst h0
    simp [validNums] at hk
  simp only [calculateMedian, hxs, if_false]
  rw [if_neg (by omega)]

/-- The specification's examples `median([3,1,2]) == 2` and
`median([4,1,3,2]) == 2.5`. -/
theorem calculateMedian_example :
    calculateMedian (JSValue.array [JSValue.number (JSNumber.ofInt 3),
      JSValue.number (JSNumber.ofInt 1), JSValue.number (JSNumber.ofInt 2)]) =
      JSNumber.ofInt 2 ∧
    calculateMedian (JSValue.array [JSValue.number (JSNumber.ofInt 4),
      JSValue.number (JSNumber.ofInt 1), JSValue.number (JSNumber.ofInt 3),
      JSValue.number (JSNumber.ofInt 2)]) = JSNumber.ofRat 5 2 := by
  decide!


/-! ## Coercion of a column -/

theorem arrayGet_number (cells : List JSValue) (c : JSNumber) :
    arrayGet cells (JSValue.number c) =
      match c.toIndex? with
      | some i => cells.getD i JSValue.undefined
      | none => JSValue.undefined := by
  unfold arrayGet toPropertyKey
  cases c.toIndex? <;> rfl

theorem arraySet_number (cells : List JSValue) (c : JSNumber) (v : JSValue) :
    arraySet cells (JSValue.number c) v =
      match c.toIndex? with
      | some i => cells.set i v
      | none => cells := by
  unfold arraySet toPropertyKey
  cases c.toIndex? <;> rfl

/-- A cell read as a string sits at an index inside the row. -/
theorem arrayGet_string {cells : List JSValue} {c : JSNumber} {s : String}
    (h : arrayGet cells (JSValue.number c) = JSValue.string s) :
    ∃ j : Nat, c.toIndex? = some j ∧ j < cells.length ∧ cells[j]? = some (JSValue.string s) := by
  rw [arrayGet_number] at h
  cases hc : c.toIndex? with
  | none => rw [hc] at h; cases h
  | some j =>
    rw [hc] at h
    simp only [List.getD_eq_getElem?_getD] at h
    refine ⟨j, rfl, ?_⟩
    cases hj : cells[j]? with
    | none => rw [hj] at h; cases h
    | some v =>
      rw [hj] at h
      simp only [Option.getD_some] at h
      subst h
      exact ⟨(List.getElem?_eq_some_iff.1 hj).1, rfl⟩

/-- The test `typeof value !== 'number' && validNumber(value)` holds of valid
strings only. -/
theorem convertible_iff (value : JSValue) :
    (value.typeof != "number" && validNumber value) =
      match value with
      | .string s => validNumber (JSValue.string s)
      | _ => false := by
  cases value <;> simp [JSValue.typeof, validNumber, patternTest]

theorem convertRow_eq (c : JSNumber) (row : JSValue) :
    convertRow (JSValue.number c) row = (coercedRow c row, coercible c row) := by
  cases row with
  | array cells =>
    simp only [convertRow, coercedRow, coercible, JSValue.Number, JSValue.elems, convertible_iff]
    by_cases hlt : JSNumber.lt c (JSNumber.ofNat cells.length) = true
    · simp only [hlt, if_true, Bool.true_and]
      cases hv : arrayGet cells (JSValue.number c) with
      | string s =>
        simp only
        by_cases hs : validNumber (JSValue.string s) = true
        · simp only [hs, if_true]
          rw [parseFloat_validString s hs]
          rfl
        · simp only [hs]
          simp
      | _ => simp
    · simp [hlt]
  | _ => simp [convertRow, coercedRow, coercible]

theorem convert_foldl (colIndex : JSValue) (rows : List JSValue) (n : Nat) (acc : List JSValue) :
    rows.foldl
      (fun (a : Nat × List JSValue) row =>
        ((if (convertRow colIndex row).2 then a.1 + 1 else a.1), a.2 ++ [(convertRow colIndex row).1]))
      (n, acc) =
    (n + (rows.filter (fun row => (convertRow colIndex row).2)).length,
      acc ++ rows.map (fun row => (convertRow colIndex row).1)) := by
  induction rows generalizing n acc with
  | nil => simp
  | cons r rs ih =>
    rw [List.foldl_cons, ih]
    by_cases h : (convertRow colIndex r).2 = true
    · simp [h, List.filter_cons]; omega
    · simp [h, List.filter_cons]

theorem convertToNumber_rows (rows : List JSValue) (c : JSNumber) (h : rows ≠ []) :
    convertToNumber (JSValue.array rows) (JSValue.number c) =
      ((rows.filter (coercible c)).length, JSValue.array (rows.map (coercedRow c))) := by
  have hlen : rows.length ≠ 0 := by
    intro h0; exact h (List.length_eq_zero.1 h0)
  have hty : ¬ ((JSValue.number c).typeof ≠ "number") := by simp [JSValue.typeof]
  simp only [convertToNumber, hlen, hty, or_self, if_false]
  rw [convert_foldl]
  simp [convertRow_eq]

theorem coercedRow_of_coercible {c : JSNumber} {cells : List JSValue}
    (h : coercible c (JSValue.array cells) = true) :
    ∃ (j : Nat) (s : String), c.toIndex? = some j ∧ j < cells.length ∧
      cells[j]? = some (JSValue.string s) ∧ validNumber (JSValue.string s) = true ∧
      coercedRow c (JSValue.array cells) =
        JSValue.array (cells.set j (JSValue.number (decimalValue s.toList))) := by
  have h0 := h
  simp only [coercible, Bool.and_eq_true] at h
  obtain ⟨-, hcell⟩ := h
  cases hv : arrayGet cells (JSValue.number c) with
  | string s =>
    rw [hv] at hcell
    obtain ⟨j, hj, hjlt, hget⟩ := arrayGet_string hv
    refine ⟨j, s, hj, hjlt, hget, hcell, ?_⟩
    simp only [coercedRow, h0, if_true, JSValue.elems, hv, numericValue, arraySet_number, hj]
  | _ => rw [hv] at hcell; simp at hcell

theorem coercedRow_of_not_coercible {c : JSNumber} {row : JSValue}
    (h : coercible c row = false) : coercedRow c row = row := by
  simp [coercedRow, h]

theorem convertToNumber_guard (df colIndex : JSValue)
    (h : df.isArray = false ∨ df = JSValue.array [] ∨ colIndex.typeof ≠ "number") :
    convertToNumber df colIndex = (0, df) := by
  cases df with
  | array rows =>
    rcases h with h | h | h
    · simp [JSValue.isArray] at h
    · cases h; simp [convertToNumber]
    · simp [convertToNumber, h]
  | _ => rfl

theorem coercible_coercedRow (c : JSNumber) (row : JSValue) :
    coercible c (coercedRow c row) = false := by
  by_cases h : coercible c row = true
  · cases row with
    | array cells =>
      obtain ⟨j, s, hj, hjlt, -, -, hrow⟩ := coercedRow_of_coercible h
      rw [hrow]
      simp only [coercible, arrayGet_number, hj, List.getD_eq_getElem?_getD]
      rw [List.getElem?_set_self (by simpa using hjlt)]
      simp
    | _ => simp [coercible] at h
  · have h2 : coercible c row = false := by simpa using h
    rw [coercedRow_of_not_coercible h2]
    exact h2

/-- C8: a second call of `convertToNumber`, right after the first and with the
same column index, returns `0` and leaves the dataframe exactly as the first
call left it. -/
theorem convertToNumber_idempotent (df colIndex : JSValue) :
    convertToNumber (convertToNumber df colIndex).2 colIndex =
      (0, (convertToNumber df colIndex).2) := by
  by_cases hg : df.isArray = false ∨ df = JSValue.array [] ∨ colIndex.typeof ≠ "number"
  · rw [convertToNumber_guard df colIndex hg]
    exact convertToNumber_guard df colIndex hg
  · simp only [not_or, not_not] at hg
    obtain ⟨h1, h2, h3⟩ := hg
    cases df with
    | array rows =>
      cases colIndex with
      | number c =>
        have hne : rows ≠ [] := fun h => h2 (by rw [h])
        rw [convertToNumber_rows rows c hne]
        have hne2 : rows.map (coercedRow c) ≠ [] := by simpa using hne
        rw [convertToNumber_rows _ c hne2]
        have hf : (rows.map (coercedRow c)).filter (coercible c) = [] := by
          rw [List.filter_eq_nil_iff]
          intro r hr
          obtain ⟨r0, -, rfl⟩ := List.mem_map.1 hr
          simp [coercible_coercedRow]
        have hm : (rows.map (coercedRow c)).map (coercedRow c) = rows.map (coercedRow c) := by
          rw [List.map_map]
          apply List.map_congr_left
          intro r _
          exact coercedRow_of_not_coercible (coercible_coercedRow c r)
        rw [hf, hm]
        rfl
      | _ => simp [JSValue.typeof] at h3
    | _ => simp [JSValue.isArray] at h1

/-- The specification's example: on `[["1","x"],["2","y"]]` and column `0` the
call returns `2` and leaves `[[1,"x"],[2,"y"]]`; a second call returns `0`. -/
theorem convertToNumber_example :
    convertToNumber (JSValue.array [JSValue.array [JSValue.string "1", JSValue.string "x"],
        JSValue.array [JSValue.string "2", JSValue.string "y"]])
        (JSValue.number (JSNumber.ofInt 0)) =
      (2, JSValue.array [JSValue.array [JSValue.number (JSNumber.ofInt 1), JSValue.string "x"],
        JSValue.array [JSValue.number (JSNumber.ofInt 2), JSValue.string "y"]]) ∧
    (convertToNumber (JSValue.array [JSValue.array [JSValue.number (JSNumber.ofInt 1),
        JSValue.string "x"],
        JSValue.array [JSValue.number (JSNumber.ofInt 2), JSValue.string "y"]])
        (JSValue.number (JSNumber.ofInt 0))).1 = 0 := by
  decide!


/-! ## Coercion of a column, with the rows as objects -/

theorem coercedRow_idem (c : JSNumber) (row : JSValue) :
    coercedRow c (coercedRow c row) = coercedRow c row :=
  coercedRow_of_not_coercible (coercible_coercedRow c row)

theorem coercedRow_undefined (c : JSNumber) : coercedRow c JSValue.undefined = JSValue.undefined :=
  coercedRow_of_not_coercible rfl

theorem convertStep_eq (c : JSNumber) (n : Nat) (store : List JSValue) (a : Nat) :
    convertStep (JSValue.number c) (n, store) a =
      (n + (if coercible c (store.getD a JSValue.undefined) then 1 else 0),
        store.set a (coercedRow c (store.getD a JSValue.undefined))) := by
  simp only [convertStep, convertRow_eq]
  by_cases h : coercible c (store.getD a JSValue.undefined) = true
  · rw [if_pos h, if_pos h]
  · rw [if_neg h, if_neg h]; rfl

/-- The object at a reference after one object was rewritten. -/
theorem getD_set_coerced (c : JSNumber) (store : List JSValue) (a b : Nat) :
    (store.set a (coercedRow c (store.getD a JSValue.undefined))).getD b JSValue.undefined =
      if b = a then coercedRow c (store.getD a JSValue.undefined)
      else store.getD b JSValue.undefined := by
  by_cases hba : b = a
  · subst hba
    simp only [if_true]
    by_cases hlt : b < store.length
    · simp [List.getD_eq_getElem?_getD, List.getElem?_set_self hlt]
    · have h1 : store.getD b JSValue.undefined = JSValue.undefined := by
        simp [List.getD_eq_getElem?_getD, List.getElem?_eq_none (by omega : store.length ≤ b)]
      have h2 : (store.set b (coercedRow c (store.getD b JSValue.undefined))).getD b
          JSValue.undefined = JSValue.undefined := by
        have hlen : (store.set b (coercedRow c (store.getD b JSValue.undefined))).length ≤ b := by
          rw [List.length_set]; omega
        rw [List.getD_eq_getElem?_getD, List.getElem?_eq_none hlen]
        rfl
      rw [h2, h1, coercedRow_undefined]
  · simp only [hba, if_false]
    have hne : a ≠ b := fun h => hba h.symm
    simp [List.getD_eq_getElem?_getD, List.getElem?_set_ne hne]

/-- Among distinct references, the ones that satisfy `p` are those that satisfy
`p` and differ from `a`, and `a` itself when it is among them and satisfies `p`. -/
theorem countP_split (p : Nat → Bool) (a : Nat) (l : List Nat) (hl : l.Nodup) :
    l.countP p =
      l.countP (fun b => decide (b ≠ a) && p b) + (if a ∈ l ∧ p a = true then 1 else 0) := by
  induction l with
  | nil => simp
  | cons x xs ih =>
    rw [List.nodup_cons] at hl
    obtain ⟨hx, hxs⟩ := hl
    have ih' := ih hxs
    by_cases hxa : x = a
    · subst hxa
      have h1 : (if x ∈ xs ∧ p x = true then 1 else 0) = 0 := by simp [hx]
      rw [h1] at ih'
      by_cases hp : p x = true
      · simp [List.countP_cons, hp, ih']
      · simp [List.countP_cons, hp, ih']
    · have hax : ¬ a = x := fun h => hxa h.symm
      have h2 : (a ∈ x :: xs ∧ p a = true) ↔ (a ∈ xs ∧ p a = true) := by
        simp [hax]
      simp only [h2]
      by_cases hp : p x = true
      · simp [List.countP_cons, hp, hxa, ih']
        omega
      · simp [List.countP_cons, hp, hxa, ih']

/-- The `forEach` loop of `convertToNumber` on a store of row objects: every object
the dataframe refers to is coerced, once, and counted once when a cell of it was
converted. -/
theorem convert_fold_store (c : JSNumber) (df : List Nat) (n : Nat) (store : List JSValue) :
    (df.foldl (convertStep (JSValue.number c)) (n, store)).2.length = store.length ∧
    (∀ b : Nat, (df.foldl (convertStep (JSValue.number c)) (n, store)).2.getD b
        JSValue.undefined =
      if b ∈ df then coercedRow c (store.getD b JSValue.undefined)
      else store.getD b JSValue.undefined) ∧
    (df.foldl (convertStep (JSValue.number c)) (n, store)).1 =
      n + (df.dedup.filter
        (fun b => coercible c (store.getD b JSValue.undefined))).length := by
  induction df generalizing n store with
  | nil => simp
  | cons a rest ih =>
    rw [List.foldl_cons, convertStep_eq]
    obtain ⟨ih1, ih2, ih3⟩ := ih (n + (if coercible c (store.getD a JSValue.undefined) then 1 else 0))
      (store.set a (coercedRow c (store.getD a JSValue.undefined)))
    refine ⟨by rw [ih1, List.length_set], ?_, ?_⟩
    · intro b
      rw [ih2 b, getD_set_coerced]
      by_cases hba : b = a
      · subst hba
        simp only [if_true, List.mem_cons, true_or]
        split
        · exact coercedRow_idem c _
        · rfl
      · simp only [hba, if_false, List.mem_cons, false_or]
    · rw [ih3]
      have hp : ∀ b : Nat,
          coercible c ((store.set a (coercedRow c (store.getD a JSValue.undefined))).getD b
            JSValue.undefined) =
          (decide (b ≠ a) && coercible c (store.getD b JSValue.undefined)) := by
        intro b
        rw [getD_set_coerced]
        by_cases hba : b = a
        · subst hba
          simp [coercible_coercedRow]
        · simp [hba]
      simp only [hp, ← List.countP_eq_length_filter]
      by_cases hmem : a ∈ rest
      · rw [List.dedup_cons_of_mem hmem]
        have hsplit := countP_split (fun b => coercible c (store.getD b JSValue.undefined)) a
          rest.dedup (List.nodup_dedup rest)
        have hin : a ∈ rest.dedup := List.mem_dedup.2 hmem
        beta_reduce at hsplit
        rw [hsplit]
        by_cases hq : coercible c (store.getD a JSValue.undefined) = true
        · rw [if_pos hq, if_pos ⟨hin, hq⟩]; omega
        · rw [if_neg hq, if_neg (fun h => hq h.2)]; omega
      · rw [List.dedup_cons_of_not_mem hmem]
        have hcongr : rest.dedup.countP
            (fun b => decide (b ≠ a) && coercible c (store.getD b JSValue.undefined)) =
            rest.dedup.countP (fun b => coercible c (store.getD b JSValue.undefined)) := by
          apply List.countP_congr
          intro b hb
          have hba : b ≠ a := fun h => hmem (by rw [← h]; exact List.mem_dedup.1 hb)
          simp [hba]
        rw [hcongr, List.countP_cons]
        by_cases hq : coercible c (store.getD a JSValue.undefined) = true
        · rw [if_pos hq]; omega
        · rw [if_neg hq]; omega

theorem convertToNumberInPlace_fold (store : List JSValue) (df : List Nat) (c : JSNumber)
    (hdf : df ≠ []) :
    convertToNumberInPlace store df (JSValue.number c) =
      df.foldl (convertStep (JSValue.number c)) (0, store) := by
  have hlen : df.length ≠ 0 := fun h0 => hdf (List.length_eq_zero.1 h0)
  have hty : ¬ ((JSValue.number c).typeof ≠ "number") := by simp [JSValue.typeof]
  simp only [convertToNumberInPlace, hlen, hty, or_self, if_false]

/-- The rows of the dataframe after the call are the coerced rows, whatever
objects the rows are. -/
theorem deref_convertToNumberInPlace (store : List JSValue) (df : List Nat) (c : JSNumber)
    (hdf : df ≠ []) :
    deref (convertToNumberInPlace store df (JSValue.number c)).2 df =
      (deref store df).map (coercedRow c) := by
  rw [convertToNumberInPlace_fold store df c hdf]
  obtain ⟨-, h2, -⟩ := convert_fold_store c df 0 store
  simp only [deref, List.map_map]
  apply List.map_congr_left
  intro a ha
  simp only [Function.comp, h2 a, ha, if_true]

/-- With the rows distinct objects, the rows counted are the rows that qualify. -/
theorem filter_dedup_of_nodup (store : List JSValue) (df : List Nat) (c : JSNumber)
    (hnd : df.Nodup) :
    (df.dedup.filter (fun b => coercible c (store.getD b JSValue.undefined))).length =
      ((deref store df).filter (coercible c)).length := by
  rw [List.Nodup.dedup hnd, deref, List.filter_map, List.length_map]
  rfl

/-- C7, as stated, fails when one row object sits at two positions: with the row
`["1","x"]` at both positions of the dataframe, two rows have a valid-number
string at column `0`, and the call returns `1` (the second visit finds the cell
already a number). -/
theorem convertToNumberInPlace_counterexample :
    ((deref [JSValue.array [JSValue.string "1", JSValue.string "x"]] [0, 0]).filter
      (coercible (JSNumber.ofInt 0))).length = 2 ∧
    (convertToNumberInPlace [JSValue.array [JSValue.string "1", JSValue.string "x"]] [0, 0]
      (JSValue.number (JSNumber.ofInt 0))).1 = 1 ∧
    (convertToNumberInPlace [JSValue.array [JSValue.string "1", JSValue.string "x"]] [0, 0]
      (JSValue.number (JSNumber.ofInt 0))).2 =
      [JSValue.array [JSValue.number (JSNumber.ofInt 1), JSValue.string "x"]] := by
  decide!

/-- C7, amended: on a non-empty dataframe and a numeric column index `c`, the count
`convertToNumber` returns is the number of row objects of the dataframe, each
counted once however many positions it sits at, that are sequences longer than
`c` whose cell at `c` is a string for which `validNumber` holds: the number of such
rows when the rows are distinct objects.  The call leaves each such row with that
cell replaced by the numeric value of the string, every other row as it was, and
touches no other object.  When the dataframe is not a non-empty sequence or `c` is
not a number, the call returns `0` and changes nothing. -/
theorem convertToNumberInPlace_spec :
    (∀ (store : List JSValue) (df : List Nat) (c : JSNumber), df ≠ [] →
      (convertToNumberInPlace store df (JSValue.number c)).1 =
        (df.dedup.filter
          (fun a => coercible c (store.getD a JSValue.undefined))).length) ∧
    (∀ (store : List JSValue) (df : List Nat) (c : JSNumber), df ≠ [] → df.Nodup →
      (convertToNumberInPlace store df (JSValue.number c)).1 =
        ((deref store df).filter (coercible c)).length) ∧
    (∀ (store : List JSValue) (df : List Nat) (c : JSNumber), df ≠ [] →
      deref (convertToNumberInPlace store df (JSValue.number c)).2 df =
        (deref store df).map (coercedRow c) ∧
      (convertToNumberInPlace store df (JSValue.number c)).2.length = store.length ∧
      ∀ a : Nat, a ∉ df →
        (convertToNumberInPlace store df (JSValue.number c)).2.getD a JSValue.undefined =
          store.getD a JSValue.undefined) ∧
    (∀ (c : JSNumber) (cells : List JSValue), coercible c (JSValue.array cells) = true →
      ∃ (j : Nat) (s : String), c.toIndex? = some j ∧ j < cells.length ∧
        cells[j]? = some (JSValue.string s) ∧ validNumber (JSValue.string s) = true ∧
        coercedRow c (JSValue.array cells) =
          JSValue.array (cells.set j (JSValue.number (decimalValue s.toList)))) ∧
    (∀ (c : JSNumber) (row : JSValue), coercible c row = false → coercedRow c row = row) ∧
    (∀ (store : List JSValue) (df : List Nat) (colIndex : JSValue),
      (df = [] ∨ colIndex.typeof ≠ "number") →
      convertToNumberInPlace store df colIndex = (0, store)) ∧
    (∀ df colIndex : JSValue, df.isArray = false → convertToNumber df colIndex = (0, df)) := by
  refine ⟨?_, ?_, ?_, fun c cells h => coercedRow_of_coercible h,
    fun c row h => coercedRow_of_not_coercible h, ?_, ?_⟩
  · intro store df c hdf
    rw [convertToNumberInPlace_fold store df c hdf, (convert_fold_store c df 0 store).2.2]
    simp
  · intro store df c hdf hnd
    rw [convertToNumberInPlace_fold store df c hdf, (convert_fold_store c df 0 store).2.2,
      filter_dedup_of_nodup store df c hnd]
    simp
  · intro store df c hdf
    refine ⟨deref_convertToNumberInPlace store df c hdf, ?_, ?_⟩
    · rw [convertToNumberInPlace_fold store df c hdf]
      exact (convert_fold_store c df 0 store).1
    · intro a ha
      rw [convertToNumberInPlace_fold store df c hdf, (convert_fold_store c df 0 store).2.1 a,
        if_neg ha]
  · intro store df colIndex h
    have : df.length = 0 ∨ colIndex.typeof ≠ "number" := by
      rcases h with h | h
      · left; rw [h]; rfl
      · right; exact h
    simp only [convertToNumberInPlace, this, if_true]
  · intro df colIndex h
    exact convertToNumber_guard df colIndex (Or.inl h)

/-- The function on a dataframe given by value agrees with the function on row
objects: in the dataframe it leaves, always, and in the count when the rows are
distinct objects. -/
theorem convertToNumber_inPlace (store : List JSValue) (df : List Nat) (c : JSNumber)
    (hdf : df ≠ []) :
    (convertToNumber (JSValue.array (deref store df)) (JSValue.number c)).2 =
      JSValue.array (deref (convertToNumberInPlace store df (JSValue.number c)).2 df) ∧
    (df.Nodup →
      (convertToNumber (JSValue.array (deref store df)) (JSValue.number c)).1 =
        (convertToNumberInPlace store df (JSValue.number c)).1) := by
  have hne : deref store df ≠ [] := by
    simpa [deref] using hdf
  rw [convertToNumber_rows _ c hne, deref_convertToNumberInPlace store df c hdf]
  refine ⟨rfl, fun hnd => ?_⟩
  rw [convertToNumberInPlace_fold store df c hdf, (convert_fold_store c df 0 store).2.2,
    filter_dedup_of_nodup store df c hnd]
  simp

/-- The specification's example with the rows as objects: on the two rows
`["1","x"]` and `["2","y"]` and column `0` the call returns `2` and leaves the rows
`[1,"x"]` and `[2,"y"]`; a second call returns `0`. -/
theorem convertToNumberInPlace_example :
    convertToNumberInPlace [JSValue.array [JSValue.string "1", JSValue.string "x"],
        JSValue.array [JSValue.string "2", JSValue.string "y"]] [0, 1]
        (JSValue.number (JSNumber.ofInt 0)) =
      (2, [JSValue.array [JSValue.number (JSNumber.ofInt 1), JSValue.string "x"],
        JSValue.array [JSValue.number (JSNumber.ofInt 2), JSValue.string "y"]]) ∧
    (convertToNumberInPlace [JSValue.array [JSValue.number (JSNumber.ofInt 1),
        JSValue.string "x"],
        JSValue.array [JSValue.number (JSNumber.ofInt 2), JSValue.string "y"]] [0, 1]
        (JSValue.number (JSNumber.ofInt 0))).1 = 0 := by
  decide!

/-! ## Slices -/

theorem getProp_length (cols : List JSValue) :
    getProp (JSValue.array cols) (JSValue.string "length") =
      Except.ok (JSValue.number (JSNumber.ofNat cols.length)) := by
  have h : toPropertyKey (JSValue.string "length") = PropKey.length := by decide
  simp only [getProp, arrayGet, h]

theorem strictEq_ofNat_zero (n : Nat) :
    JSValue.strictEq (JSValue.number (JSNumber.ofNat n)) (JSValue.number (JSNumber.fin 0)) =
      decide (n = 0) := by
  by_cases hn : n = 0
  · subst hn
    rw [JSNumber.ofNat_zero]
    decide
  · have h := JSNumber.ofNat_ne_zero n (Nat.pos_of_ne_zero hn)
    simp only [JSValue.strictEq, hn, decide_False]
    cases hv : JSNumber.ofNat n with
    | nan => rfl
    | posInf => rfl
    | negInf => rfl
    | fin m =>
      rw [hv] at h
      simp only [JSNumber.strictEq]
      simpa using h

theorem strictEq_eq {a b : JSValue} (h : JSValue.strictEq a b = true) :
    a = b ∧ a.typeof = b.typeof := by
  cases a <;> cases b <;> simp_all [JSValue.strictEq]
  rename_i x y
  cases x <;> cases y <;> simp_all [JSNumber.strictEq]

theorem filterRows_arrays (colIndex colPattern : JSValue) (rows : List JSValue)
    (h : ∀ r ∈ rows, r.isArray = true) :
    filterRows colIndex colPattern rows =
      Except.ok (rows.filter
        (fun row => JSValue.strictEq (arrayGet row.elems colIndex) colPattern)) := by
  induction rows with
  | nil => rfl
  | cons r rs ih =>
    have hr := h r (by simp)
    cases r with
    | array cells =>
      rw [filterRows]
      simp only [getProp, ih (fun x hx => h x (by simp [hx])), JSValue.elems, List.filter_cons]
    | _ => simp [JSValue.isArray] at hr

theorem pickCells_array (cells cols : List JSValue) :
    pickCells (JSValue.array cells) cols = Except.ok (cols.map (fun i => arrayGet cells i)) := by
  induction cols with
  | nil => rfl
  | cons i is ih =>
    rw [pickCells]
    simp only [getProp, ih, List.map_cons]

theorem projectRows_arrays (cols rows : List JSValue) (h : ∀ r ∈ rows, r.isArray = true) :
    projectRows (JSValue.array cols) rows =
      Except.ok (rows.map
        (fun row => JSValue.array (cols.map (fun i => arrayGet row.elems i)))) := by
  induction rows with
  | nil => rfl
  | cons r rs ih =>
    have hr := h r (by simp)
    cases r with
    | array cells =>
      rw [projectRows]
      simp only [pickCells_array, ih (fun x hx => h x (by simp [hx])), JSValue.elems,
        List.map_cons]
    | _ => simp [JSValue.isArray] at hr

/-- The rows `createSlice` selects from a dataframe of rows. -/
theorem createSlice_noExport (rows : List JSValue) (colIndex colPattern : JSValue)
    (hrows : rows ≠ []) (harr : ∀ r ∈ rows, r.isArray = true) :
    createSlice (JSValue.array rows) colIndex colPattern (JSValue.array []) =
      Except.ok (JSValue.array
        (if JSValue.strictEq colPattern (JSValue.string "*") then rows
         else rows.filter
          (fun row => JSValue.strictEq (arrayGet row.elems colIndex) colPattern))) := by
  have hlen : rows.length ≠ 0 := fun h0 => hrows (List.length_eq_zero.1 h0)
  have hu : ¬ (JSValue.array [] = JSValue.undefined) := by intro h; cases h
  by_cases hstar : JSValue.strictEq colPattern (JSValue.string "*") = true
  · simp only [createSlice, hu, if_false, hlen, getProp_length, strictEq_ofNat_zero,
      List.length_nil, decide_True, if_true, hstar]
  · simp only [createSlice, hu, if_false, hlen, getProp_length, strictEq_ofNat_zero,
      List.length_nil, decide_True, if_true, hstar, filterRows_arrays _ _ _ harr,
      Bool.false_eq_true]

theorem createSlice_export (rows cols : List JSValue) (colIndex colPattern : JSValue)
    (hrows : rows ≠ []) (hcols : cols ≠ []) (harr : ∀ r ∈ rows, r.isArray = true) :
    createSlice (JSValue.array rows) colIndex colPattern (JSValue.array cols) =
      Except.ok (JSValue.array
        ((if JSValue.strictEq colPattern (JSValue.string "*") then rows
          else rows.filter
            (fun row => JSValue.strictEq (arrayGet row.elems colIndex) colPattern)).map
          (fun row => JSValue.array (cols.map (fun i => arrayGet row.elems i))))) := by
  have hlen : rows.length ≠ 0 := fun h0 => hrows (List.length_eq_zero.1 h0)
  have hclen : cols.length ≠ 0 := fun h0 => hcols (List.length_eq_zero.1 h0)
  have hu : ¬ (JSValue.array cols = JSValue.undefined) := by intro h; cases h
  by_cases hstar : JSValue.strictEq colPattern (JSValue.string "*") = true
  · simp only [createSlice, hu, if_false, hlen, getProp_length, strictEq_ofNat_zero, hclen,
      decide_False, Bool.false_eq_true, hstar, if_true, projectRows_arrays _ _ harr]
  · simp only [createSlice, hu, if_false, hlen, getProp_length, strictEq_ofNat_zero, hclen,
      decide_False, Bool.false_eq_true, hstar, filterRows_arrays _ _ _ harr,
      projectRows_arrays _ _ (fun r hr => harr r (List.mem_filter.1 hr).1)]

theorem createSlice_degenerate (df colIndex colPattern exportCols : JSValue)
    (h : df.isArray = false ∨ df = JSValue.array []) :
    createSlice df colIndex colPattern exportCols = Except.ok (JSValue.array []) := by
  cases df with
  | array rows =>
    rcases h with h | h
    · simp [JSValue.isArray] at h
    · cases h; simp [createSlice]
  | _ => rfl

/-- C9: with no export columns (the argument left out, or empty), `createSlice` on
a non-empty dataframe of rows returns all rows, unchanged and in order, when the
pattern is `"*"`, and otherwise exactly the rows whose cell at the column index
is strictly equal to the pattern, in their order and unchanged; strictly equal
values are the same value of the same type, so the number `1` does not match the
string `"1"`; on a dataframe that is not a non-empty sequence the result is the
empty sequence. -/
theorem createSlice_selection :
    (∀ df colIndex colPattern : JSValue,
      createSlice df colIndex colPattern JSValue.undefined =
        createSlice df colIndex colPattern (JSValue.array [])) ∧
    (∀ (rows : List JSValue) (colIndex : JSValue), rows ≠ [] →
      createSlice (JSValue.array rows) colIndex (JSValue.string "*") (JSValue.array []) =
        Except.ok (JSValue.array rows)) ∧
    (∀ (rows : List JSValue) (colIndex colPattern : JSValue), rows ≠ [] →
      (∀ r ∈ rows, r.isArray = true) → colPattern ≠ JSValue.string "*" →
      createSlice (JSValue.array rows) colIndex colPattern (JSValue.array []) =
        Except.ok (JSValue.array (rows.filter
          (fun row => JSValue.strictEq (arrayGet row.elems colIndex) colPattern)))) ∧
    (∀ a b : JSValue, JSValue.strictEq a b = true → a = b ∧ a.typeof = b.typeof) ∧
    JSValue.strictEq (JSValue.number (JSNumber.ofInt 1)) (JSValue.string "1") = false ∧
    (∀ df colIndex colPattern exportCols : JSValue,
      (df.isArray = false ∨ df = JSValue.array []) →
      createSlice df colIndex colPattern exportCols = Except.ok (JSValue.array [])) := by
  refine ⟨?_, ?_, ?_, fun a b h => strictEq_eq h, rfl, createSlice_degenerate⟩
  · intro df colIndex colPattern
    simp [createSlice]
  · intro rows colIndex hrows
    have hlen : rows.length ≠ 0 := fun h0 => hrows (List.length_eq_zero.1 h0)
    have hu : ¬ (JSValue.array [] = JSValue.undefined) := by intro h; cases h
    have hstar : JSValue.strictEq (JSValue.string "*") (JSValue.string "*") = true := by decide
    simp only [createSlice, hu, if_false, hlen, getProp_length, strictEq_ofNat_zero,
      List.length_nil, decide_True, if_true, hstar]
  · intro rows colIndex colPattern hrows harr hp
    rw [createSlice_noExport rows colIndex colPattern hrows harr]
    have hne : JSValue.strictEq colPattern (JSValue.string "*") = false := by
      rw [Bool.eq_false_iff]
      exact fun h => hp (strictEq_eq h).1
    rw [hne]
    rfl

/-- C10: with a non-empty list of export columns, `createSlice` on a non-empty
dataframe of rows returns one row per selected row, in the order of the selection
made with no export columns, and each returned row is the new row of the cells at
the listed indices, in the order of the list, of the length of the list. -/
theorem createSlice_projection (rows cols : List JSValue) (colIndex colPattern : JSValue)
    (hrows : rows ≠ []) (hcols : cols ≠ []) (harr : ∀ r ∈ rows, r.isArray = true) :
    ∃ selected : List JSValue,
      createSlice (JSValue.array rows) colIndex colPattern (JSValue.array []) =
        Except.ok (JSValue.array selected) ∧
      createSlice (JSValue.array rows) colIndex colPattern (JSValue.array cols) =
        Except.ok (JSValue.array (selected.map
          (fun row => JSValue.array (cols.map (fun i => arrayGet row.elems i))))) ∧
      (selected.map
          (fun row => JSValue.array (cols.map (fun i => arrayGet row.elems i)))).length =
        selected.length ∧
      ∀ out ∈ selected.map
          (fun row => JSValue.array (cols.map (fun i => arrayGet row.elems i))),
        out.elems.length = cols.length :=
  ⟨_, createSlice_noExport rows colIndex colPattern hrows harr,
    createSlice_export rows cols colIndex colPattern hrows hcols harr,
    List.length_map _ _,
    by
      intro out hout
      obtain ⟨row, -, rfl⟩ := List.mem_map.1 hout
      simp [JSValue.elems]⟩

/-- The specification's example of a projection: on `[["a",1],["b",2],["a",3]]`,
pattern `"*"` and export columns `[1]`, the slice is `[[1],[2],[3]]`; with
columns `[1, 1, 0]` and pattern `"a"` it is `[[1,1,"a"],[3,3,"a"]]`. -/
theorem createSlice_projection_witness :
    ∃ selected : List JSValue,
      createSlice (JSValue.array [
          JSValue.array [JSValue.string "a", JSValue.number (JSNumber.ofInt 1)],
          JSValue.array [JSValue.string "b", JSValue.number (JSNumber.ofInt 2)],
          JSValue.array [JSValue.string "a", JSValue.number (JSNumber.ofInt 3)]])
        (JSValue.number (JSNumber.ofInt 0)) (JSValue.string "a") (JSValue.array []) =
        Except.ok (JSValue.array selected) ∧
      createSlice (JSValue.array [
          JSValue.array [JSValue.string "a", JSValue.number (JSNumber.ofInt 1)],
          JSValue.array [JSValue.string "b", JSValue.number (JSNumber.ofInt 2)],
          JSValue.array [JSValue.string "a", JSValue.number (JSNumber.ofInt 3)]])
        (JSValue.number (JSNumber.ofInt 0)) (JSValue.string "a")
        (JSValue.array [JSValue.number (JSNumber.ofInt 1), JSValue.number (JSNumber.ofInt 1),
          JSValue.number (JSNumber.ofInt 0)]) =
        Except.ok (JSValue.array (selected.map
          (fun row => JSValue.array
            ([JSValue.number (JSNumber.ofInt 1), JSValue.number (JSNumber.ofInt 1),
              JSValue.number (JSNumber.ofInt 0)].map (fun i => arrayGet row.elems i))))) ∧
      (selected.map
          (fun row => JSValue.array
            ([JSValue.number (JSNumber.ofInt 1), JSValue.number (JSNumber.ofInt 1),
              JSValue.number (JSNumber.ofInt 0)].map (fun i => arrayGet row.elems i)))).length =
        selected.length ∧
      ∀ out ∈ selected.map
          (fun row => JSValue.array
            ([JSValue.number (JSNumber.ofInt 1), JSValue.number (JSNumber.ofInt 1),
              JSValue.number (JSNumber.ofInt 0)].map (fun i => arrayGet row.elems i))),
        out.elems.length =
          [JSValue.number (JSNumber.ofInt 1), JSValue.number (JSNumber.ofInt 1),
            JSValue.number (JSNumber.ofInt 0)].length :=
  createSlice_projection _ _ _ _ (by simp) (by simp)
    (by intro r hr; simp at hr; rcases hr with rfl | rfl | rfl <;> rfl)

/-- The specification's examples of `createSlice`. -/
theorem createSlice_example :
    createSlice (JSValue.array [
        JSValue.array [JSValue.string "a", JSValue.number (JSNumber.ofInt 1)],
        JSValue.array [JSValue.string "b", JSValue.number (JSNumber.ofInt 2)],
        JSValue.array [JSValue.string "a", JSValue.number (JSNumber.ofInt 3)]])
      (JSValue.number (JSNumber.ofInt 0)) (JSValue.string "a") JSValue.undefined =
      Except.ok (JSValue.array [
        JSValue.array [JSValue.string "a", JSValue.number (JSNumber.ofInt 1)],
        JSValue.array [JSValue.string "a", JSValue.number (JSNumber.ofInt 3)]]) ∧
    createSlice (JSValue.array [
        JSValue.array [JSValue.string "a", JSValue.number (JSNumber.ofInt 1)],
        JSValue.array [JSValue.string "b", JSValue.number (JSNumber.ofInt 2)],
        JSValue.array [JSValue.string "a", JSValue.number (JSNumber.ofInt 3)]])
      (JSValue.number (JSNumber.ofInt 0)) (JSValue.string "*")
      (JSValue.array [JSValue.number (JSNumber.ofInt 1)]) =
      Except.ok (JSValue.array [
        JSValue.array [JSValue.number (JSNumber.ofInt 1)],
        JSValue.array [JSValue.number (JSNumber.ofInt 2)],
        JSValue.array [JSValue.number (JSNumber.ofInt 3)]]) ∧
    createSlice (JSValue.array [
        JSValue.array [JSValue.string "a", JSValue.number (JSNumber.ofInt 1)],
        JSValue.array [JSValue.string "b", JSValue.number (JSNumber.ofInt 2)],
        JSValue.array [JSValue.string "a", JSValue.number (JSNumber.ofInt 3)]])
      (JSValue.number (JSNumber.ofInt 0)) (JSValue.string "a")
      (JSValue.array [JSValue.number (JSNumber.ofInt 1), JSValue.number (JSNumber.ofInt 1),
        JSValue.number (JSNumber.ofInt 0)]) =
      Except.ok (JSValue.array [
        JSValue.array [JSValue.number (JSNumber.ofInt 1), JSValue.number (JSNumber.ofInt 1),
          JSValue.string "a"],
        JSValue.array [JSValue.number (JSNumber.ofInt 3), JSValue.number (JSNumber.ofInt 3),
          JSValue.string "a"]]) := by
  decide!


/-! ## Flattening -/

theorem firstCells_arrays (rows : List JSValue) (h : ∀ r ∈ rows, r.isArray = true) :
    firstCells rows =
      Except.ok (rows.map (fun row => arrayGet row.elems (JSValue.number (JSNumber.fin 0)))) := by
  induction rows with
  | nil => rfl
  | cons r rs ih =>
    have hr := h r (by simp)
    cases r with
    | array cells =>
      rw [firstCells]
      simp only [getProp, ih (fun x hx => h x (by simp [hx])), JSValue.elems, List.map_cons]
    | _ => simp [JSValue.isArray] at hr

theorem arrayGet_zero (cells : List JSValue) :
    arrayGet cells (JSValue.number (JSNumber.fin 0)) = cells.getD 0 JSValue.undefined := by
  have h : toPropertyKey (JSValue.number (JSNumber.fin 0)) = PropKey.index 0 := by decide!
  simp only [arrayGet, h]

/-- C11: `flatten(df)` is the empty sequence unless `df` is a non-empty sequence
whose column count, as `dataDimensions` reports it, is `1`; when it is, and the
rows of the dataframe are sequences, `flatten(df)` is a sequence of the length of
`df` whose `i`-th element is the cell at index `0` of the `i`-th row. -/
theorem flatten_spec :
    (∀ df : JSValue, ¬ (df.isArray = true ∧ df ≠ JSValue.array [] ∧ (dataDimensions df).2 = 1) →
      flatten df = Except.ok (JSValue.array [])) ∧
    (∀ rows : List JSValue, rows ≠ [] → (dataDimensions (JSValue.array rows)).2 = 1 →
      (∀ r ∈ rows, r.isArray = true) →
      flatten (JSValue.array rows) =
        Except.ok (JSValue.array
          (rows.map (fun row => row.elems.getD 0 JSValue.undefined))) ∧
      (rows.map (fun row => row.elems.getD 0 JSValue.undefined)).length = rows.length ∧
      ∀ (i : Nat) (row : JSValue), rows[i]? = some row →
        (rows.map (fun row => row.elems.getD 0 JSValue.undefined))[i]? =
          some (row.elems.getD 0 JSValue.undefined)) := by
  constructor
  · intro df h
    cases df with
    | array rows =>
      simp only [JSValue.isArray, true_and, not_and] at h
      by_cases hrows : rows = []
      · subst hrows; rfl
      · have h2 := h (by intro e; cases e; exact hrows rfl)
        simp [flatten, h2]
    | _ => rfl
  · intro rows hne hcols harr
    refine ⟨?_, List.length_map _ _, ?_⟩
    · have hlen : rows.length ≠ 0 := fun h0 => hne (List.length_eq_zero.1 h0)
      simp only [flatten, hlen, hcols, ne_eq, not_true_eq_false, or_self, if_false,
        firstCells_arrays rows harr, arrayGet_zero]
    · intro i row hi
      rw [List.getElem?_map, hi]
      rfl

/-- The specification's examples `flatten([[1],[2],[3]]) == [1,2,3]` and
`flatten([[1,2]]) == []`. -/
theorem flatten_example :
    flatten (JSValue.array [JSValue.array [JSValue.number (JSNumber.ofInt 1)],
      JSValue.array [JSValue.number (JSNumber.ofInt 2)],
      JSValue.array [JSValue.number (JSNumber.ofInt 3)]]) =
      Except.ok (JSValue.array [JSValue.number (JSNumber.ofInt 1),
        JSValue.number (JSNumber.ofInt 2), JSValue.number (JSNumber.ofInt 3)]) ∧
    flatten (JSValue.array [JSValue.array [JSValue.number (JSNumber.ofInt 1),
      JSValue.number (JSNumber.ofInt 2)]]) = Except.ok (JSValue.array []) := by
  decide!

/-! ## Exceptions -/

/-- C12 fails on the code: `flatten` raises a `TypeError` on `[[1], null]`, and
`createSlice` raises one on `[[1], null]` with pattern `"x"`, on an `exportCols`
that is `null`, and on an `exportCols` that is the number `5`. -/
theorem neverThrow_fails :
    flatten (JSValue.array [JSValue.array [JSValue.number (JSNumber.ofInt 1)],
      JSValue.null]) = Except.error JSError.typeError ∧
    createSlice (JSValue.array [JSValue.array [JSValue.number (JSNumber.ofInt 1)],
      JSValue.null]) (JSValue.number (JSNumber.ofInt 0)) (JSValue.string "x")
      JSValue.undefined = Except.error JSError.typeError ∧
    createSlice (JSValue.array [JSValue.array [JSValue.number (JSNumber.ofInt 1)]])
      (JSValue.number (JSNumber.ofInt 0)) (JSValue.string "*") JSValue.null =
      Except.error JSError.typeError ∧
    createSlice (JSValue.array [JSValue.array [JSValue.number (JSNumber.ofInt 1)]])
      (JSValue.number (JSNumber.ofInt 0)) (JSValue.string "*")
      (JSValue.number (JSNumber.ofInt 5)) = Except.error JSError.typeError ∧
    (convertToNumber (JSValue.array [JSValue.array [JSValue.string "1"], JSValue.null])
      (JSValue.number (JSNumber.ofInt 0))).1 = 1 := by
  decide!


/-! ## Loading -/

theorem splitChars_ne_nil (sep : Char) (cs : List Char) : splitChars sep cs ≠ [] := by
  cases cs with
  | nil => simp [splitChars]
  | cons c t =>
    rw [splitChars]
    split
    · simp
    · split <;> simp

/-- Splitting and joining: the pieces hold no separator, and joined by the
separator they give the text back. -/
theorem splitChars_spec (sep : Char) (cs : List Char) :
    (∀ piece ∈ splitChars sep cs, sep ∉ piece) ∧
    List.intercalate [sep] (splitChars sep cs) = cs := by
  induction cs with
  | nil => simp [splitChars, List.intercalate]
  | cons c t ih =>
    obtain ⟨ih1, ih2⟩ := ih
    rw [splitChars]
    by_cases hc : c = sep
    · subst hc
      simp only [if_true]
      refine ⟨?_, ?_⟩
      · intro piece hp
        rcases List.mem_cons.1 hp with rfl | hp
        · simp
        · exact ih1 piece hp
      · obtain ⟨p, ps, hps⟩ := List.exists_cons_of_ne_nil (splitChars_ne_nil c t)
        rw [hps] at ih2 ⊢
        simpa [List.intercalate, List.intersperse] using ih2
    · simp only [hc, if_false]
      obtain ⟨p, ps, hps⟩ := List.exists_cons_of_ne_nil (splitChars_ne_nil sep t)
      rw [hps] at ih1 ih2 ⊢
      simp only
      refine ⟨?_, ?_⟩
      · intro piece hp
        rcases List.mem_cons.1 hp with rfl | hp
        · intro hmem
          rcases List.mem_cons.1 hmem with h | h
          · exact hc h.symm
          · exact ih1 p (by simp) h
        · exact ih1 piece (by simp [hp])
      · cases ps with
        | nil => simpa [List.intercalate, List.intersperse] using ih2
        | cons q qs =>
          simp only [List.intercalate, List.intersperse, List.flatten, List.cons_append] at ih2 ⊢
          rw [ih2]

theorem trimChars_eq_nil_iff (line : List Char) : trimChars line = [] ↔ isBlank line = true := by
  rw [trimChars, List.rdropWhile_eq_nil_iff, isBlank, List.all_eq_true]
  constructor
  · intro h
    have hnil : line.dropWhile isStrWhiteSpaceChar = [] := by
      cases hd : line.dropWhile isStrWhiteSpaceChar with
      | nil => rfl
      | cons a t =>
        have ha : isStrWhiteSpaceChar a = true := h a (by rw [hd]; simp)
        have hna := List.head_dropWhile_not isStrWhiteSpaceChar line
          (by rw [hd]; simp)
        simp only [hd, List.head_cons] at hna
        rw [ha] at hna
        exact absurd hna (by simp)
    intro x hx
    exact (List.dropWhile_eq_nil_iff.1 hnil) x hx
  · intro h x hx
    exact h x ((List.dropWhile_sublist _).subset hx)

theorem readRows_eq (text : String) : readRows text = csvRows text := by
  rw [readRows, csvRows]
  congr 1
  apply List.filter_congr
  intro line _
  by_cases hb : isBlank line = true
  · have := (trimChars_eq_nil_iff line).2 hb
    simp [this, hb]
  · have hne : trimChars line ≠ [] := fun h => hb ((trimChars_eq_nil_iff line).1 h)
    have : 0 < (trimChars line).length := List.length_pos.2 hne
    simp [this, hb]

theorem sameValueZero_number (x : JSValue) (k : JSNumber) :
    sameValueZero x (JSValue.number k) = decide (x = JSValue.number k) := by
  cases x with
  | number a => simp [sameValueZero]
  | _ => simp [sameValueZero, JSValue.strictEq]

theorem includesIndex_array (ignore : List JSValue) (i : Nat) :
    includesIndex (JSValue.array ignore) i =
      Except.ok (decide (JSValue.number (JSNumber.ofNat i) ∈ ignore)) := by
  simp only [includesIndex]
  congr 1
  induction ignore with
  | nil => simp
  | cons x xs ih =>
    simp only [List.any_cons, ih, sameValueZero_number x _, List.mem_cons]
    by_cases h1 : x = JSValue.number (JSNumber.ofNat i)
    · simp [h1]
    · have h2 : ¬ (JSValue.number (JSNumber.ofNat i) = x) := fun h => h1 h.symm
      simp [h1, h2]

theorem dropIgnored_array (ignore : List JSValue) (start : Nat) (rows : List (List String)) :
    dropIgnored (JSValue.array ignore) start rows = Except.ok (keepRows ignore start rows) := by
  induction rows generalizing start with
  | nil => rfl
  | cons r rs ih =>
    rw [dropIgnored, includesIndex_array, ih]
    simp only [keepRows, List.enumFrom_cons, List.filter_cons]
    by_cases h : JSValue.number (JSNumber.ofNat start) ∈ ignore
    · simp [h]
    · simp [h]

/-- What `loadCSV` does on a file that exists, with a list of rows to ignore. -/
theorem loadCSV_array (fs : FileSystem) (filename text : String) (ignore : List JSValue)
    (ignoreCols : JSValue) (hfile : fs filename = some text) :
    loadCSV fs filename (JSValue.array ignore) ignoreCols =
      match keepRows ignore 0 (csvRows text) with
      | [] => Except.error JSError.typeError
      | first :: rest =>
          Except.ok (first :: rest, ((first :: rest).length : Int) + 1, (first.length : Int)) := by
  have hu : ¬ (JSValue.array ignore = JSValue.undefined) := by intro h; cases h
  simp only [loadCSV, hu, if_false, hfile, readRows_eq, dropIgnored_array]
  have hpos : ∀ n : Nat, (0 : Int) < (n : Int) + 1 := fun n => by omega
  cases keepRows ignore 0 (csvRows text) with
  | nil => simp
  | cons first rest =>
    simp only [List.length_cons, List.getElem?_cons_zero, Nat.cast_add, Nat.cast_one]
    rw [if_pos (by omega)]

theorem loadCSV_default (fs : FileSystem) (filename : String) (ignoreCols : JSValue) :
    loadCSV fs filename JSValue.undefined ignoreCols =
      loadCSV fs filename (JSValue.array []) ignoreCols := by
  simp [loadCSV]


theorem dropIgnored_sublist (ignoreRows : JSValue) (start : Nat) (rows kept : List (List String))
    (h : dropIgnored ignoreRows start rows = Except.ok kept) : kept.Sublist rows := by
  induction rows generalizing start kept with
  | nil =>
    simp only [dropIgnored] at h
    cases h
    exact List.Sublist.refl _
  | cons r rs ih =>
    rw [dropIgnored] at h
    cases hi : includesIndex ignoreRows start with
    | error e => rw [hi] at h; cases h
    | ok ignored =>
      rw [hi] at h
      cases hd : dropIgnored ignoreRows (start + 1) rs with
      | error e => rw [hd] at h; cases h
      | ok kept1 =>
        rw [hd] at h
        have hsub := ih (start + 1) kept1 hd
        simp only at h
        cases h
        cases ignored with
        | true => simpa using hsub.trans (List.sublist_cons_self r rs)
        | false => simpa using hsub

theorem loadCSV_sublist (fs : FileSystem) (filename text : String)
    (ignoreRows ignoreCols : JSValue) (rows : List (List String)) (n c : Int)
    (hfile : fs filename = some text)
    (h : loadCSV fs filename ignoreRows ignoreCols = Except.ok (rows, n, c)) :
    rows.Sublist (csvRows text) := by
  simp only [loadCSV, hfile, readRows_eq] at h
  split at h
  · cases h
  · rename_i filteredData hd
    have hsub := dropIgnored_sublist _ _ _ _ hd
    split at h
    · split at h
      · cases h; exact hsub
      · cases h
    · cases h; exact hsub

/-- C13 fails on the code: whenever the file exists and no row is left after the
filtering, `loadCSV` raises a `TypeError` (the read `filteredData[0].length` is of
`undefined`) instead of returning `([], 1, 0)`: so on an empty file, on a file of
blank lines only, and when every row is ignored. -/
theorem loadCSV_noRows_throws :
    (∀ (fs : FileSystem) (filename text : String) (ignore : List JSValue) (ignoreCols : JSValue),
      fs filename = some text → keepRows ignore 0 (csvRows text) = [] →
      loadCSV fs filename (JSValue.array ignore) ignoreCols =
        Except.error JSError.typeError) ∧
    loadCSV (fun _ => some "") "data.csv" JSValue.undefined JSValue.undefined =
      Except.error JSError.typeError ∧
    loadCSV (fun _ => some "\n  \n\t\n") "data.csv" JSValue.undefined JSValue.undefined =
      Except.error JSError.typeError ∧
    loadCSV (fun _ => some "a,b\n1,2\n") "data.csv"
      (JSValue.array [JSValue.number (JSNumber.ofInt 0), JSValue.number (JSNumber.ofInt 1)])
      JSValue.undefined = Except.error JSError.typeError := by
  refine ⟨?_, by decide!, by decide!, by decide!⟩
  intro fs filename text ignore ignoreCols hfile hnone
  rw [loadCSV_array fs filename text ignore ignoreCols hfile, hnone]

/-- C14 holds of every file that leaves a row, and fails where none is left.  The
pieces of a split hold no separator and join back to the text; on a file that
exists, with a list of rows to ignore that leaves at least one row, the rows
`loadCSV` returns are the rows of the text (split at newlines, blank lines
dropped, each line split at its commas) without those whose position is in the
list, in file order; where no row is left the call raises a `TypeError` and
returns no rows. -/
theorem loadCSV_rows :
    (∀ (sep : Char) (cs : List Char),
      (∀ piece ∈ splitChars sep cs, sep ∉ piece) ∧
      List.intercalate [sep] (splitChars sep cs) = cs) ∧
    (∀ (fs : FileSystem) (filename text : String) (ignore : List JSValue) (ignoreCols : JSValue),
      fs filename = some text → keepRows ignore 0 (csvRows text) ≠ [] →
      ∃ n c : Int, loadCSV fs filename (JSValue.array ignore) ignoreCols =
        Except.ok (keepRows ignore 0 (csvRows text), n, c)) ∧
    (csvRows "" = [] ∧
      loadCSV (fun _ => some "") "data.csv" (JSValue.array []) JSValue.undefined =
        Except.error JSError.typeError) := by
  refine ⟨splitChars_spec, ?_, by decide!, by decide!⟩
  intro fs filename text ignore ignoreCols hfile hsome
  rw [loadCSV_array fs filename text ignore ignoreCols hfile]
  cases hk : keepRows ignore 0 (csvRows text) with
  | nil => exact absurd hk hsome
  | cons first rest => exact ⟨_, _, rfl⟩

theorem dataDimensions_toDataframe (first : List String) (rest : List (List String)) :
    dataDimensions (toDataframe (first :: rest)) =
      (((first :: rest).length : Int), (first.length : Int)) := by
  simp [toDataframe, dataDimensions, JSValue.truthy, JSValue.isArray, JSValue.elems]

/-- C15: on a file that exists, with a list of rows to ignore that leaves at least
one row, the row count `loadCSV` returns is the number of returned rows plus `1`
and the column count is the length of the first returned row; the row count
differs from the one `dataDimensions` reports for the returned rows. -/
theorem loadCSV_counts (fs : FileSystem) (filename text : String) (ignore : List JSValue)
    (ignoreCols : JSValue) (hfile : fs filename = some text)
    (hrows : keepRows ignore 0 (csvRows text) ≠ []) :
    ∃ (first : List String) (rest : List (List String)),
      keepRows ignore 0 (csvRows text) = first :: rest ∧
      loadCSV fs filename (JSValue.array ignore) ignoreCols =
        Except.ok (first :: rest, ((first :: rest).length : Int) + 1, (first.length : Int)) ∧
      ((first :: rest).length : Int) + 1 ≠ (dataDimensions (toDataframe (first :: rest))).1 ∧
      (first.length : Int) = (dataDimensions (toDataframe (first :: rest))).2 := by
  rw [loadCSV_array fs filename text ignore ignoreCols hfile]
  cases hk : keepRows ignore 0 (csvRows text) with
  | nil => exact absurd hk hrows
  | cons first rest =>
    refine ⟨first, rest, rfl, rfl, ?_, ?_⟩
    · rw [dataDimensions_toDataframe]
      simp
    · rw [dataDimensions_toDataframe]

/-- The specification's round trip: the file `"a,b\n1,2\n3,4\n"` loads as three
rows with row count `4` and column count `2`. -/
theorem loadCSV_counts_witness :
    ∃ (first : List String) (rest : List (List String)),
      keepRows [] 0 (csvRows "a,b\n1,2\n3,4\n") = first :: rest ∧
      loadCSV (fun _ => some "a,b\n1,2\n3,4\n") "data.csv" (JSValue.array [])
          JSValue.undefined =
        Except.ok (first :: rest, ((first :: rest).length : Int) + 1, (first.length : Int)) ∧
      ((first :: rest).length : Int) + 1 ≠ (dataDimensions (toDataframe (first :: rest))).1 ∧
      (first.length : Int) = (dataDimensions (toDataframe (first :: rest))).2 :=
  loadCSV_counts (fun _ => some "a,b\n1,2\n3,4\n") "data.csv" "a,b\n1,2\n3,4\n" []
    JSValue.undefined rfl (by decide)

/-- The specification's example of `loadCSV`, evaluated. -/
theorem loadCSV_example :
    loadCSV (fun _ => some "a,b\n1,2\n3,4\n") "data.csv" JSValue.undefined JSValue.undefined =
      Except.ok ([["a", "b"], ["1", "2"], ["3", "4"]], 4, 2) ∧
    loadCSV (fun _ => some "a,b\n1,2\n3,4\n") "data.csv"
      (JSValue.array [JSValue.number (JSNumber.ofInt 1)]) JSValue.undefined =
      Except.ok ([["a", "b"], ["3", "4"]], 3, 2) := by
  decide!

/-- C16: `loadCSV` returns the same result whatever is passed for `ignoreCols`,
and every row it returns is a whole line of the file split at its commas: no
column is removed. -/
theorem loadCSV_ignoreCols_inert :
    (∀ (fs : FileSystem) (filename : String) (ignoreRows a b : JSValue),
      loadCSV fs filename ignoreRows a = loadCSV fs filename ignoreRows b) ∧
    (∀ (fs : FileSystem) (filename text : String) (ignoreRows ignoreCols : JSValue)
      (rows : List (List String)) (n c : Int),
      fs filename = some text →
      loadCSV fs filename ignoreRows ignoreCols = Except.ok (rows, n, c) →
      ∀ row ∈ rows, ∃ line ∈ splitChars '\n' text.toList,
        row = (splitChars ',' line).map String.mk) := by
  refine ⟨fun fs filename ignoreRows a b => rfl, ?_⟩
  intro fs filename text ignoreRows ignoreCols rows n c hfile h row hrow
  have hsub := loadCSV_sublist fs filename text ignoreRows ignoreCols rows n c hfile h
  have hmem := hsub.subset hrow
  rw [csvRows, List.mem_map] at hmem
  obtain ⟨line, hline, rfl⟩ := hmem
  exact ⟨line, (List.mem_filter.1 hline).1, rfl⟩

/-- C17: at a path where no file exists `loadCSV` returns `([], -1, -1)`, whatever
the other arguments are. -/
theorem loadCSV_missing (fs : FileSystem) (filename : String) (ignoreRows ignoreCols : JSValue)
    (hfile : fs filename = none) :
    loadCSV fs filename ignoreRows ignoreCols = Except.ok ([], -1, -1) := by
  simp only [loadCSV, hfile]

/-- A missing file, with `null` passed for both lists. -/
theorem loadCSV_missing_witness :
    loadCSV (fun _ => none) "missing.csv" JSValue.null JSValue.null =
      Except.ok ([], -1, -1) :=
  loadCSV_missing (fun _ => none) "missing.csv" JSValue.null JSValue.null rfl


/-! ## What the coercion leaves alone -/

/-- The cells of a row after the coercion: as many as before, the same away from
the column index, and the same at the column index when the cell there is a
number or fails `validNumber`. -/
theorem coercedRow_frame (c : JSNumber) (row : JSValue) :
    (row.isArray = false → coercedRow c row = row) ∧
    (coercedRow c row).isArray = row.isArray ∧
    (coercedRow c row).elems.length = row.elems.length ∧
    (∀ j : Nat, c.toIndex? ≠ some j → (coercedRow c row).elems[j]? = row.elems[j]?) ∧
    (∀ (j : Nat) (cell : JSValue), c.toIndex? = some j → row.elems[j]? = some cell →
      (cell.typeof = "number" ∨ validNumber cell = false) → coercedRow c row = row) := by
  by_cases h : coercible c row = true
  · cases row with
    | array cells =>
      obtain ⟨j0, s, hj0, hlt, hget, hvalid, hrow⟩ := coercedRow_of_coercible h
      rw [hrow]
      refine ⟨fun hf => by simp [JSValue.isArray] at hf, rfl, by simp [JSValue.elems], ?_, ?_⟩
      · intro j hj
        have hne : j0 ≠ j := fun e => hj (by rw [hj0, e])
        simp only [JSValue.elems]
        exact List.getElem?_set_ne hne
      · intro j cell hj hcell hkeep
        have hjj : j = j0 := by
          rw [hj0] at hj
          exact (Option.some.inj hj).symm
        subst hjj
        simp only [JSValue.elems] at hcell
        rw [hget] at hcell
        cases hcell
        rcases hkeep with hk | hk
        · simp [JSValue.typeof] at hk
        · rw [hvalid] at hk; cases hk
    | _ => simp [coercible] at h
  · have h2 : coercible c row = false := by simpa using h
    rw [coercedRow_of_not_coercible h2]
    exact ⟨fun _ => rfl, rfl, rfl, fun _ _ => rfl, fun _ _ _ _ _ => rfl⟩

/-- C18: `convertToNumber` leaves a dataframe that is not a non-empty sequence, and
any dataframe when the column index is not a number, as it was; otherwise it
leaves the number of rows and the length of every row unchanged, every cell at an
index other than the column index unchanged, every row whose cell at the column
index is a number or fails `validNumber` unchanged, and every row that is not a
sequence unchanged. -/
theorem convertToNumber_frame :
    (∀ df colIndex : JSValue,
      (df.isArray = false ∨ df = JSValue.array [] ∨ colIndex.typeof ≠ "number") →
      (convertToNumber df colIndex).2 = df) ∧
    (∀ (rows : List JSValue) (c : JSNumber), rows ≠ [] →
      ∃ rows' : List JSValue,
        (convertToNumber (JSValue.array rows) (JSValue.number c)).2 = JSValue.array rows' ∧
        rows'.length = rows.length ∧
        ∀ (i : Nat) (row : JSValue), rows[i]? = some row →
          ∃ row' : JSValue, rows'[i]? = some row' ∧
            (row.isArray = false → row' = row) ∧
            row'.isArray = row.isArray ∧
            row'.elems.length = row.elems.length ∧
            (∀ j : Nat, c.toIndex? ≠ some j → row'.elems[j]? = row.elems[j]?) ∧
            (∀ (j : Nat) (cell : JSValue), c.toIndex? = some j → row.elems[j]? = some cell →
              (cell.typeof = "number" ∨ validNumber cell = false) → row' = row)) := by
  constructor
  · intro df colIndex h
    rw [convertToNumber_guard df colIndex h]
  · intro rows c hne
    refine ⟨rows.map (coercedRow c), ?_, List.length_map _ _, ?_⟩
    · rw [convertToNumber_rows rows c hne]
    · intro i row hi
      refine ⟨coercedRow c row, ?_, coercedRow_frame c row⟩
      rw [List.getElem?_map, hi]
      rfl

/-! ## The aggregates of a column, before and after the coercion -/

/-- The dataframe `convertToNumber` leaves, row by row. -/
theorem convertToNumber_elems (rows : List JSValue) (colIndex : JSValue) :
    ∃ f : JSValue → JSValue,
      (convertToNumber (JSValue.array rows) colIndex).2 = JSValue.array (rows.map f) ∧
      ∀ row : JSValue, f row = row ∨ ∃ c : JSNumber, f row = coercedRow c row := by
  by_cases hg : JSValue.array rows = JSValue.array [] ∨ colIndex.typeof ≠ "number"
  · refine ⟨id, ?_, fun row => Or.inl rfl⟩
    rw [convertToNumber_guard _ _ (Or.inr hg)]
    simp
  · simp only [not_or, not_not] at hg
    cases colIndex with
    | number c =>
      refine ⟨coercedRow c, ?_, fun row => Or.inr ⟨c, rfl⟩⟩
      rw [convertToNumber_rows rows c (fun h => hg.1 (by rw [h]))]
    | _ => simp [JSValue.typeof] at hg

/-- A cell after the coercion is the cell before, or the number a valid string
spelt. -/
theorem coercedRow_cell (c : JSNumber) (row : JSValue) (k : Nat) :
    (coercedRow c row).elems[k]? = row.elems[k]? ∨
    ∃ s : String, row.elems[k]? = some (JSValue.string s) ∧
      validNumber (JSValue.string s) = true ∧
      (coercedRow c row).elems[k]? = some (JSValue.number (decimalValue s.toList)) := by
  by_cases h : coercible c row = true
  · cases row with
    | array cells =>
      obtain ⟨j0, s, hj0, hlt, hget, hvalid, hrow⟩ := coercedRow_of_coercible h
      rw [hrow]
      simp only [JSValue.elems]
      by_cases hk : j0 = k
      · subst hk
        right
        exact ⟨s, hget, hvalid, by rw [List.getElem?_set_self hlt]⟩
      · left
        exact List.getElem?_set_ne hk
    | _ => simp [coercible] at h
  · have h2 : coercible c row = false := by simpa using h
    rw [coercedRow_of_not_coercible h2]
    exact Or.inl rfl

theorem validNumber_number (n : JSNumber) : validNumber (JSValue.number n) = true := by
  simp [validNumber, JSValue.typeof]

theorem validNums_cons (x : JSValue) (xs : List JSValue) :
    validNums (x :: xs) =
      (if validNumber x = true then [x.Number] else []) ++ validNums xs := by
  by_cases h : validNumber x = true
  · simp [validNums, List.filter_cons, h]
  · simp [validNums, List.filter_cons, h]

/-- The valid numbers of a column are the same before and after a row-wise change
that turns valid strings into the numbers they spell. -/
theorem validNums_column (k : Nat) (f : JSValue → JSValue) (rows : List JSValue)
    (hf : ∀ row : JSValue, f row = row ∨ ∃ c : JSNumber, f row = coercedRow c row) :
    validNums (column k (rows.map f)) = validNums (column k rows) ∧
    (column k (rows.map f)).length = (column k rows).length := by
  induction rows with
  | nil => exact ⟨rfl, rfl⟩
  | cons r rs ih =>
    have hcell : (f r).elems[k]? = r.elems[k]? ∨
        ∃ s : String, r.elems[k]? = some (JSValue.string s) ∧
          validNumber (JSValue.string s) = true ∧
          (f r).elems[k]? = some (JSValue.number (decimalValue s.toList)) := by
      rcases hf r with h | ⟨c, h⟩
      · rw [h]; exact Or.inl rfl
      · rw [h]; exact coercedRow_cell c r k
    simp only [column, List.map_cons, List.filterMap_cons] at ih ⊢
    rcases hcell with h | ⟨s, h1, h2, h3⟩
    · rw [h]
      cases r.elems[k]? with
      | none => exact ih
      | some cell =>
        simp only [validNums_cons, List.length_cons]
        exact ⟨by rw [ih.1], by rw [ih.2]⟩
    · rw [h1, h3]
      simp only [validNums_cons, List.length_cons, validNumber_number, h2, if_true]
      refine ⟨?_, by rw [ih.2]⟩
      rw [ih.1, Number_validString s h2]
      rfl

theorem findTotal_validNums (xs : List JSValue) :
    findTotal (JSValue.array xs) = (validNums xs).foldl JSNumber.add (JSNumber.fin 0) := by
  cases xs with
  | nil => rfl
  | cons a t => simp [findTotal]

theorem aggregates_congr (xs ys : List JSValue) (hv : validNums xs = validNums ys)
    (hl : xs.length = ys.length) :
    findTotal (JSValue.array xs) = findTotal (JSValue.array ys) ∧
    calculateMean (JSValue.array xs) = calculateMean (JSValue.array ys) ∧
    calculateMedian (JSValue.array xs) = calculateMedian (JSValue.array ys) := by
  refine ⟨?_, ?_, ?_⟩
  · rw [findTotal_validNums, findTotal_validNums, hv]
  · simp only [calculateMean, hv, hl]
  · simp only [calculateMedian, hv, hl]

/-- C19: `findTotal` of the column at index `k` of a dataframe (the cells at `k`
of the rows that are sequences long enough to have one) is the same before and
after `convertToNumber(df, c)`, whatever `c` and `k` are, and so are
`calculateMean` and `calculateMedian`; `parseFloat` and `Number` agree on every
string for which `validNumber` holds. -/
theorem convertToNumber_preserves_aggregates (rows : List JSValue) (colIndex : JSValue)
    (k : Nat) :
    findTotal (JSValue.array (column k (convertToNumber (JSValue.array rows) colIndex).2.elems)) =
      findTotal (JSValue.array (column k rows)) ∧
    calculateMean
        (JSValue.array (column k (convertToNumber (JSValue.array rows) colIndex).2.elems)) =
      calculateMean (JSValue.array (column k rows)) ∧
    calculateMedian
        (JSValue.array (column k (convertToNumber (JSValue.array rows) colIndex).2.elems)) =
      calculateMedian (JSValue.array (column k rows)) ∧
    ∀ s : String, validNumber (JSValue.string s) = true →
      (JSValue.string s).parseFloat = (JSValue.string s).Number := by
  obtain ⟨f, hf1, hf2⟩ := convertToNumber_elems rows colIndex
  have hv := validNums_column k f rows hf2
  rw [hf1]
  simp only [JSValue.elems]
  obtain ⟨h1, h2, h3⟩ := aggregates_congr _ _ hv.1 hv.2
  exact ⟨h1, h2, h3, fun s hs => by rw [parseFloat_validString s hs, Number_validString s hs]⟩

/-- The total of that column is `6.5`, before the coercion and after it. -/
theorem convertToNumber_preserves_aggregates_example :
    findTotal (JSValue.array (column 0 [
        JSValue.array [JSValue.string "1", JSValue.string "x"],
        JSValue.array [JSValue.string "2.5", JSValue.string "y"],
        JSValue.array [JSValue.number (JSNumber.ofInt 3), JSValue.string "z"]])) =
      JSNumber.ofRat 13 2 ∧
    findTotal (JSValue.array (column 0 (convertToNumber (JSValue.array [
        JSValue.array [JSValue.string "1", JSValue.string "x"],
        JSValue.array [JSValue.string "2.5", JSValue.string "y"],
        JSValue.array [JSValue.number (JSNumber.ofInt 3), JSValue.string "z"]])
        (JSValue.number (JSNumber.ofInt 0))).2.elems)) = JSNumber.ofRat 13 2 := by
  decide!


namespace JSNumber

/-! ## Rounding and the doubles -/

theorem excessBits_bounds (fuel n : Nat) (h : n ≤ fuel) :
    n < 2 ^ (53 + excessBits fuel n) ∧
    (0 < excessBits fuel n → 2 ^ (52 + excessBits fuel n) ≤ n) := by
  induction fuel generalizing n with
  | zero =>
    have hn : n = 0 := by omega
    subst hn
    simp [excessBits]
  | succ f ih =>
    rw [excessBits]
    by_cases h53 : n < 2 ^ 53
    · simp only [h53, if_true]
      exact ⟨by simp [h53], fun h0 => absurd h0 (by omega)⟩
    · simp only [h53, if_false]
      have hge : 2 ^ 53 ≤ n := Nat.le_of_not_lt h53
      have h2 : n / 2 ≤ f := by
        have : (2 : Nat) ≤ n := Nat.le_trans (by norm_num) hge
        omega
      obtain ⟨ih1, ih2⟩ := ih (n / 2) h2
      have e1 : 2 ^ (53 + (excessBits f (n / 2) + 1)) = 2 * 2 ^ (53 + excessBits f (n / 2)) := by
        rw [← Nat.add_assoc, pow_succ]; ring
      have e2 : 2 ^ (52 + (excessBits f (n / 2) + 1)) = 2 * 2 ^ (52 + excessBits f (n / 2)) := by
        rw [← Nat.add_assoc, pow_succ]; ring
      rw [e1, e2]
      refine ⟨by omega, fun _ => ?_⟩
      by_cases hk : 0 < excessBits f (n / 2)
      · have := ih2 hk
        omega
      · have hk0 : excessBits f (n / 2) = 0 := by omega
        rw [hk0]
        simpa using hge

/-- Nearest-integer rounding lies on the right side of every integer. -/
theorem halfEven_bounds (p d : Nat) (hd : 0 < d) (t : Nat) :
    (t * d ≤ p → t ≤ halfEven p d) ∧ (p ≤ t * d → halfEven p d ≤ t) := by
  constructor
  · intro h
    have : t ≤ p / d := (Nat.le_div_iff_mul_le hd).2 h
    exact Nat.le_trans this (le_halfEven p d)
  · intro h
    have hq : p / d ≤ t := by
      calc p / d ≤ t * d / d := Nat.div_le_div_right h
        _ = t := Nat.mul_div_cancel t hd
    have hdm := Nat.div_add_mod p d
    unfold halfEven
    simp only
    by_cases hr : p % d = 0
    · rw [if_pos (by omega)]
      exact hq
    · have hlt : p / d < t := by
        rcases Nat.lt_or_ge (p / d) t with h1 | h1
        · exact h1
        · exfalso
          have heq : p / d = t := Nat.le_antisymm hq h1
          rw [heq] at hdm
          have : d * t = t * d := Nat.mul_comm d t
          omega
      split
      · exact hq
      · split
        · omega
        · split
          · exact hq
          · omega

theorem le_roundMag (p d : Nat) (hd : 0 < d) (j a : Nat) (ha : Fits j a) (h : a * d ≤ p) :
    a ≤ roundMag p d := by
  unfold roundMag
  simp only
  obtain ⟨hdiv, hlt⟩ := ha
  obtain ⟨hb1, hb2⟩ := excessBits_bounds (p / d) (p / d) (Nat.le_refl _)
  generalize excessBits (p / d) (p / d) = k at hb1 hb2
  have hdk : 0 < d * 2 ^ k := Nat.mul_pos hd (by positivity)
  by_cases hkj : k ≤ j
  · obtain ⟨t, rfl⟩ := (Nat.pow_dvd_pow 2 hkj).trans hdiv
    have := (halfEven_bounds p (d * 2 ^ k) hdk t).1 (by
      calc t * (d * 2 ^ k) = 2 ^ k * t * d := by ring
        _ ≤ p := h)
    calc 2 ^ k * t = t * 2 ^ k := Nat.mul_comm _ _
      _ ≤ halfEven p (d * 2 ^ k) * 2 ^ k := Nat.mul_le_mul_right _ this
  · have hk0 : 0 < k := by omega
    have hfloor := hb2 hk0
    have hp : 2 ^ (52 + k) * d ≤ p := (Nat.le_div_iff_mul_le hd).1 hfloor
    have := (halfEven_bounds p (d * 2 ^ k) hdk (2 ^ 52)).1 (by
      calc 2 ^ 52 * (d * 2 ^ k) = 2 ^ (52 + k) * d := by rw [pow_add]; ring
        _ ≤ p := hp)
    have hpow : 2 ^ (53 + j) ≤ 2 ^ (52 + k) := Nat.pow_le_pow_right (by norm_num) (by omega)
    calc a ≤ 2 ^ (52 + k) := Nat.le_of_lt (Nat.lt_of_lt_of_le hlt hpow)
      _ = 2 ^ 52 * 2 ^ k := by rw [pow_add]
      _ ≤ halfEven p (d * 2 ^ k) * 2 ^ k := Nat.mul_le_mul_right _ this

theorem roundMag_le (p d : Nat) (hd : 0 < d) (j a : Nat) (ha : Fits j a) (h : p ≤ a * d) :
    roundMag p d ≤ a := by
  unfold roundMag
  simp only
  obtain ⟨hdiv, hlt⟩ := ha
  obtain ⟨hb1, hb2⟩ := excessBits_bounds (p / d) (p / d) (Nat.le_refl _)
  generalize excessBits (p / d) (p / d) = k at hb1 hb2
  have hdk : 0 < d * 2 ^ k := Nat.mul_pos hd (by positivity)
  have hfl : p / d ≤ a := by
    calc p / d ≤ a * d / d := Nat.div_le_div_right h
      _ = a := Nat.mul_div_cancel a hd
  have hkj : k ≤ j := by
    by_contra hcon
    have hk0 : 0 < k := by omega
    have hfloor := hb2 hk0
    have hpow : 2 ^ (53 + j) ≤ 2 ^ (52 + k) := Nat.pow_le_pow_right (by norm_num) (by omega)
    omega
  obtain ⟨t, rfl⟩ := (Nat.pow_dvd_pow 2 hkj).trans hdiv
  have := (halfEven_bounds p (d * 2 ^ k) hdk t).2 (by
    calc p ≤ 2 ^ k * t * d := h
      _ = t * (d * 2 ^ k) := by ring)
  calc halfEven p (d * 2 ^ k) * 2 ^ k ≤ t * 2 ^ k := Nat.mul_le_mul_right _ this
    _ = 2 ^ k * t := Nat.mul_comm _ _

/-- A fixed point of the rounding has at most 53 significant bits. -/
theorem fits_of_roundMag_eq (n : Nat) (h : roundMag n 1 = n) : ∃ j, Fits j n := by
  unfold roundMag at h
  simp only [Nat.div_one, one_mul] at h
  obtain ⟨hb1, -⟩ := excessBits_bounds n n (Nat.le_refl _)
  exact ⟨excessBits n n, ⟨Dvd.intro_left _ h, hb1⟩⟩

theorem fits_double {j a : Nat} (h : Fits j a) : Fits (j + 1) (2 * a) := by
  obtain ⟨hdiv, hlt⟩ := h
  refine ⟨?_, ?_⟩
  · rw [pow_succ, Nat.mul_comm]
    exact Nat.mul_dvd_mul_left 2 hdiv
  · have e : 2 ^ (53 + (j + 1)) = 2 * 2 ^ (53 + j) := by
      rw [← Nat.add_assoc, pow_succ]; ring
    rw [e]
    omega

theorem ofUnits_eq (neg : Bool) (p d : Nat) :
    (overflow ≤ roundMag p d ∧ ofUnits neg p d = if neg then negInf else posInf) ∨
    (roundMag p d < overflow ∧
      ofUnits neg p d = fin (if neg then -(roundMag p d : Int) else (roundMag p d : Int))) := by
  unfold ofUnits
  simp only
  by_cases h : overflow ≤ roundMag p d
  · left; exact ⟨h, by rw [if_pos h]⟩
  · right; exact ⟨by omega, by rw [if_neg h]⟩

/-- A finite double is a fixed point of the rounding, below the overflow. -/
theorem isDouble_fin {m : Int} (h : isDouble (fin m) = true) :
    roundMag m.natAbs 1 = m.natAbs ∧ m.natAbs < overflow := by
  simp only [isDouble, decide_eq_true_eq, roundInt] at h
  rcases ofUnits_eq (decide (m < 0)) m.natAbs 1 with ⟨-, h2⟩ | ⟨h1, h2⟩
  · rw [h2] at h
    split at h <;> cases h
  · rw [h2] at h
    have hm := fin.inj h
    have : (roundMag m.natAbs 1 : Int) = (m.natAbs : Int) := by
      by_cases hneg : m < 0
      · simp only [hneg, decide_True, if_true] at hm
        omega
      · simp only [hneg, decide_False, Bool.false_eq_true, if_false] at hm
        omega
    have h3 : roundMag m.natAbs 1 = m.natAbs := by exact_mod_cast this
    exact ⟨h3, by omega⟩

theorem isDouble_fits {m : Int} (h : isDouble (fin m) = true) : ∃ j, Fits j m.natAbs :=
  fits_of_roundMag_eq _ (isDouble_fin h).1

/-- Rounding, with its sign, lies on the right side of every double. -/
theorem signedRound_bounds (num : Int) (d : Nat) (hd : 0 < d) (j : Nat) (a : Int)
    (ha : Fits j a.natAbs) :
    (a * d ≤ num →
      a ≤ (if num < 0 then -(roundMag num.natAbs d : Int) else (roundMag num.natAbs d : Int))) ∧
    (num ≤ a * d →
      (if num < 0 then -(roundMag num.natAbs d : Int) else (roundMag num.natAbs d : Int)) ≤ a) := by
  have hdi : (0 : Int) < (d : Int) := by exact_mod_cast hd
  constructor
  · intro h
    by_cases hn : num < 0
    · rw [if_pos hn]
      have ha0 : a < 0 := by
        by_contra hcon
        have : 0 ≤ a * d := mul_nonneg (by omega) (Int.le_of_lt hdi)
        omega
      have hle : num.natAbs ≤ a.natAbs * d := by
        have e1 : (num.natAbs : Int) = -num := by omega
        have e2 : (a.natAbs : Int) = -a := by omega
        have : (num.natAbs : Int) ≤ (a.natAbs : Int) * (d : Int) := by
          rw [e1, e2]; linarith
        exact_mod_cast this
      have := roundMag_le num.natAbs d hd j a.natAbs ha hle
      omega
    · rw [if_neg hn]
      by_cases ha0 : a ≤ 0
      · have : (0 : Int) ≤ (roundMag num.natAbs d : Int) := Int.natCast_nonneg _
        omega
      · have hle : a.natAbs * d ≤ num.natAbs := by
          have e1 : (num.natAbs : Int) = num := by omega
          have e2 : (a.natAbs : Int) = a := by omega
          have : (a.natAbs : Int) * (d : Int) ≤ (num.natAbs : Int) := by
            rw [e1, e2]; exact h
          exact_mod_cast this
        have := le_roundMag num.natAbs d hd j a.natAbs ha hle
        omega
  · intro h
    by_cases hn : num < 0
    · rw [if_pos hn]
      by_cases ha0 : 0 ≤ a
      · have : (0 : Int) ≤ (roundMag num.natAbs d : Int) := Int.natCast_nonneg _
        omega
      · have hle : a.natAbs * d ≤ num.natAbs := by
          have e1 : (num.natAbs : Int) = -num := by omega
          have e2 : (a.natAbs : Int) = -a := by omega
          have : (a.natAbs : Int) * (d : Int) ≤ (num.natAbs : Int) := by
            rw [e1, e2]; linarith
          exact_mod_cast this
        have := le_roundMag num.natAbs d hd j a.natAbs ha hle
        omega
    · rw [if_neg hn]
      have ha0 : 0 ≤ a := by
        by_contra hcon
        have : a * d < 0 := mul_neg_of_neg_of_pos (by omega) hdi
        omega
      have hle : num.natAbs ≤ a.natAbs * d := by
        have e1 : (num.natAbs : Int) = num := by omega
        have e2 : (a.natAbs : Int) = a := by omega
        have : (num.natAbs : Int) ≤ (a.natAbs : Int) * (d : Int) := by
          rw [e1, e2]; exact h
        exact_mod_cast this
      have := roundMag_le num.natAbs d hd j a.natAbs ha hle
      omega

theorem ofNat_two : ofNat 2 = fin (2 * (one : Int)) := by decide!

/-- The half-sum of two finite doubles lies between them, when the sum does not
overflow. -/
theorem halfSum_between {x y s : Int} (hx : isDouble (fin x) = true)
    (hy : isDouble (fin y) = true) (hxy : x ≤ y) (hs : add (fin x) (fin y) = fin s) :
    ∃ m : Int, div (fin s) (ofNat 2) = fin m ∧ x ≤ m ∧ m ≤ y := by
  obtain ⟨jx, hjx⟩ := isDouble_fits hx
  obtain ⟨jy, hjy⟩ := isDouble_fits hy
  have hxo := (isDouble_fin hx).2
  have hyo := (isDouble_fin hy).2
  -- the sum
  have hsum : 2 * x ≤ s ∧ s ≤ 2 * y := by
    simp only [add, roundInt] at hs
    rcases ofUnits_eq (decide (x + y < 0)) (x + y).natAbs 1 with ⟨-, h2⟩ | ⟨-, h2⟩
    · rw [h2] at hs
      split at hs <;> cases hs
    · rw [h2] at hs
      have hs' := fin.inj hs
      simp only [decide_eq_true_eq] at hs'
      have h2x : Fits (jx + 1) (2 * x).natAbs := by
        have : (2 * x).natAbs = 2 * x.natAbs := by omega
        rw [this]; exact fits_double hjx
      have h2y : Fits (jy + 1) (2 * y).natAbs := by
        have : (2 * y).natAbs = 2 * y.natAbs := by omega
        rw [this]; exact fits_double hjy
      have b1 := (signedRound_bounds (x + y) 1 (by norm_num) (jx + 1) (2 * x) h2x).1
        (by simp; omega)
      have b2 := (signedRound_bounds (x + y) 1 (by norm_num) (jy + 1) (2 * y) h2y).2
        (by simp; omega)
      rw [hs'] at b1 b2
      exact ⟨b1, b2⟩
  -- the half
  have hone : (0 : Int) < (one : Int) := by exact_mod_cast one_pos
  have h2one : (2 * (one : Int)) ≠ 0 := by omega
  have hnat : (2 * (one : Int)).natAbs = 2 * one := by omega
  have hsign : ((s < 0) ≠ (2 * (one : Int) < 0)) ↔ s * (one : Int) < 0 := by
    have h2 : ¬ (2 * (one : Int) < 0) := by omega
    simp only [ne_eq, h2, eq_iff_iff, iff_false, not_not]
    constructor
    · intro h; exact mul_neg_of_neg_of_pos h hone
    · intro h
      by_contra hcon
      have : 0 ≤ s * (one : Int) := mul_nonneg (by omega) (Int.le_of_lt hone)
      omega
  have hmag : s.natAbs * one = (s * (one : Int)).natAbs := by
    rw [Int.natAbs_mul]; simp
  rw [ofNat_two]
  simp only [div, h2one, if_false, hnat]
  rw [hmag]
  have hd : 0 < 2 * one := by have := one_pos; omega
  have ex : x * ((2 * one : Nat) : Int) = (2 * x) * (one : Int) := by push_cast; ring
  have ey : y * ((2 * one : Nat) : Int) = (2 * y) * (one : Int) := by push_cast; ring
  have c1 := (signedRound_bounds (s * (one : Int)) (2 * one) hd jx x hjx).1 (by
    rw [ex]; exact mul_le_mul_of_nonneg_right hsum.1 (Int.le_of_lt hone))
  have c2 := (signedRound_bounds (s * (one : Int)) (2 * one) hd jy y hjy).2 (by
    rw [ey]; exact mul_le_mul_of_nonneg_right hsum.2 (Int.le_of_lt hone))
  rcases ofUnits_eq (decide ((s < 0) ≠ (2 * (one : Int) < 0)))
      (s * (one : Int)).natAbs (2 * one) with ⟨h1, -⟩ | ⟨-, h2⟩
  · exfalso
    by_cases hneg : s * (one : Int) < 0
    · rw [if_pos hneg] at c1; omega
    · rw [if_neg hneg] at c2; omega
  · rw [h2]
    by_cases hneg : s * (one : Int) < 0
    · have hdec : decide ((s < 0) ≠ (2 * (one : Int) < 0)) = true := by
        rw [decide_eq_true_eq]; exact hsign.2 hneg
      rw [if_pos hneg] at c1 c2
      rw [hdec]
      exact ⟨_, rfl, by simpa using c1, by simpa using c2⟩
    · have hdec : decide ((s < 0) ≠ (2 * (one : Int) < 0)) = false := by
        rw [decide_eq_false_iff_not]; exact fun h => hneg (hsign.1 h)
      rw [if_neg hneg] at c1 c2
      rw [hdec]
      exact ⟨_, rfl, by simpa using c1, by simpa using c2⟩

theorem halfEven_of_dvd (n d : Nat) (hd : 0 < d) (h : d ∣ n) : halfEven n d = n / d := by
  unfold halfEven
  simp only
  have : n % d = 0 := Nat.mod_eq_zero_of_dvd h
  rw [this, if_pos (by omega)]

theorem roundMag_of_dvd (n : Nat) (h : 2 ^ excessBits n n ∣ n) : roundMag n 1 = n := by
  have hpos : 0 < 2 ^ excessBits n n := by positivity
  unfold roundMag
  simp only [Nat.div_one, one_mul]
  rw [halfEven_of_dvd _ _ hpos h]
  exact Nat.div_mul_cancel h

/-- Rounding a rounded magnitude leaves it as it is. -/
theorem roundMag_idem (p d : Nat) (hd : 0 < d) : roundMag (roundMag p d) 1 = roundMag p d := by
  apply roundMag_of_dvd
  obtain ⟨hb1, -⟩ := excessBits_bounds (p / d) (p / d) (Nat.le_refl _)
  obtain ⟨-, hc2⟩ := excessBits_bounds (roundMag p d) (roundMag p d) (Nat.le_refl _)
  have hN : roundMag p d =
      halfEven p (d * 2 ^ excessBits (p / d) (p / d)) * 2 ^ excessBits (p / d) (p / d) := rfl
  generalize excessBits (roundMag p d) (roundMag p d) = k' at hc2 ⊢
  generalize excessBits (p / d) (p / d) = k at hb1 hN
  have hdk : 0 < d * 2 ^ k := Nat.mul_pos hd (by positivity)
  have hp : p ≤ 2 ^ 53 * (d * 2 ^ k) := by
    have h1 : p < 2 ^ (53 + k) * d := (Nat.div_lt_iff_lt_mul hd).1 hb1
    have h2 : 2 ^ 53 * (d * 2 ^ k) = 2 ^ (53 + k) * d := by rw [pow_add]; ring
    omega
  have hh := (halfEven_bounds p (d * 2 ^ k) hdk (2 ^ 53)).2 hp
  have hNle : roundMag p d ≤ 2 ^ (53 + k) := by
    rw [hN, pow_add]
    exact Nat.mul_le_mul_right _ hh
  by_cases hk : k' ≤ k
  · rw [hN]
    exact Dvd.dvd.mul_left (Nat.pow_dvd_pow 2 hk) _
  · have hk0 : 0 < k' := by omega
    have hlow := hc2 hk0
    have hpow : 2 ^ (53 + k) ≤ 2 ^ (52 + k') := Nat.pow_le_pow_right (by norm_num) (by omega)
    have heq : roundMag p d = 2 ^ (52 + k') := by omega
    rw [heq]
    exact Nat.pow_dvd_pow 2 (by omega)

theorem isDouble_ofUnits (neg : Bool) (p d : Nat) (hd : 0 < d) :
    isDouble (ofUnits neg p d) = true := by
  rcases ofUnits_eq neg p d with ⟨-, h2⟩ | ⟨h1, h2⟩
  · rw [h2]; cases neg <;> rfl
  · rw [h2]
    have hidem := roundMag_idem p d hd
    simp only [isDouble, decide_eq_true_eq, roundInt]
    have habs : (if neg = true then -(roundMag p d : Int) else (roundMag p d : Int)).natAbs =
        roundMag p d := by
      cases neg <;> simp
    rcases ofUnits_eq (decide ((if neg = true then -(roundMag p d : Int)
        else (roundMag p d : Int)) < 0))
        (if neg = true then -(roundMag p d : Int) else (roundMag p d : Int)).natAbs 1 with
      ⟨g1, -⟩ | ⟨-, g2⟩
    · rw [habs, hidem] at g1; omega
    · rw [g2, habs, hidem]
      refine congrArg fin ?_
      cases neg with
      | false =>
        have : ¬ ((roundMag p d : Int) < 0) := by omega
        simp [this]
      | true =>
        by_cases hz : roundMag p d = 0
        · simp [hz]
        · have : (-(roundMag p d : Int) < 0) := by omega
          simp [this]

end JSNumber

/-! ## The median, whatever the order -/

namespace JSNumber

theorem le_antisymm {x y : JSNumber} (h1 : le x y = true) (h2 : le y x = true) : x = y := by
  cases x <;> cases y <;> simp_all [le]
  omega

theorem le_refl_of_ne_nan {x : JSNumber} (h : x ≠ nan) : le x x = true := by
  cases x <;> simp_all [le]

/-- The half-sum of two numbers in order lies between them, unless the sum is
`NaN` or overflows. -/
theorem halfSum_between_of_le {a b : JSNumber} (ha : isDouble a = true) (hb : isDouble b = true)
    (hab : le a b = true) (hnan : add a b ≠ nan)
    (hfin : a.isFinite = true → b.isFinite = true → (add a b).isFinite = true) :
    le a (div (add a b) (ofNat 2)) = true ∧ le (div (add a b) (ofNat 2)) b = true := by
  have hone : (0 : Int) < (one : Int) := by exact_mod_cast one_pos
  have h2 : ¬ (2 * (one : Int) < 0) := by omega
  cases a with
  | nan => simp [le] at hab
  | posInf =>
    cases b with
    | posInf => rw [ofNat_two]; simp [add, div, le, h2]
    | _ => simp [le] at hab
  | negInf =>
    cases b with
    | nan => simp [le] at hab
    | posInf => exact absurd rfl hnan
    | negInf => rw [ofNat_two]; simp [add, div, le, h2]
    | fin y => rw [ofNat_two]; simp [add, div, le, h2]
  | fin x =>
    cases b with
    | nan => simp [le] at hab
    | negInf => simp [le] at hab
    | posInf => rw [ofNat_two]; simp [add, div, le, h2]
    | fin y =>
      have hxy : x ≤ y := by simpa [le] using hab
      have hf := hfin rfl rfl
      cases hs : add (fin x) (fin y) with
      | fin s =>
        obtain ⟨m, hm, h1, h2'⟩ := halfSum_between ha hb hxy hs
        rw [hm]
        simp [le, h1, h2']
      | nan => rw [hs] at hf; cases hf
      | posInf => rw [hs] at hf; cases hf
      | negInf => rw [hs] at hf; cases hf

end JSNumber

theorem ofDecimal_isDouble (neg : Bool) (n : Nat) (ex : Int) :
    (ofDecimal neg n ex).isDouble = true := by
  unfold ofDecimal
  split
  · exact JSNumber.isDouble_ofUnits _ _ _ (by norm_num)
  · exact JSNumber.isDouble_ofUnits _ _ _ (by positivity)

/-- The numeric value of a valid element is a double, when the numbers of the
dataset are. -/
theorem numericValue_isDouble (x : JSValue)
    (hx : ∀ n : JSNumber, x = JSValue.number n → n.isDouble = true) :
    (numericValue x).isDouble = true := by
  cases x with
  | number n => exact hx n rfl
  | string s => exact ofDecimal_isDouble _ _ _
  | _ => rfl

theorem calculateMedian_eq (xs : List JSValue) :
    calculateMedian (JSValue.array xs) =
      medianOfSorted (sortNumbers ((xs.filter validNumber).map numericValue)) := by
  rw [← validNums_eq]
  have hlen : (sortNumbers (validNums xs)).length = (validNums xs).length :=
    (sortNumbers_perm _).length_eq
  by_cases hv : (validNums xs).length = 0
  · have hs : (sortNumbers (validNums xs)).length = 0 := by omega
    simp only [calculateMedian, medianOfSorted, hv, hs, if_true]
    split <;> rfl
  · have hs : (sortNumbers (validNums xs)).length ≠ 0 := by omega
    have hxs : xs.length ≠ 0 := by
      intro h0
      rw [List.length_eq_zero] at h0
      subst h0
      exact hv rfl
    simp only [calculateMedian, medianOfSorted, hv, hs, hxs, if_false]

/-- Two rearrangements of the same numbers, none `NaN`, sort to the same array. -/
theorem sortNumbers_eq_of_perm {l₁ l₂ : List JSNumber} (hp : l₁.Perm l₂)
    (hnan : ∀ v ∈ l₁, v ≠ JSNumber.nan) : sortNumbers l₁ = sortNumbers l₂ := by
  haveI : IsAntisymm JSNumber (fun a b => JSNumber.le a b = true) :=
    ⟨fun _ _ h1 h2 => JSNumber.le_antisymm h1 h2⟩
  have hnan2 : ∀ v ∈ l₂, v ≠ JSNumber.nan := fun v hv => hnan v (hp.mem_iff.2 hv)
  exact List.eq_of_perm_of_sorted
    (((sortNumbers_perm l₁).trans hp).trans (sortNumbers_perm l₂).symm)
    (sortNumbers_sorted l₁ hnan) (sortNumbers_sorted l₂ hnan2)


theorem JSNumber.le_nan_left (x : JSNumber) : JSNumber.le JSNumber.nan x = false := by
  cases x <;> rfl

theorem JSNumber.le_nan_right (x : JSNumber) : JSNumber.le x JSNumber.nan = false := by
  cases x <;> rfl

/-- C6, as stated, fails where a `NaN` is among the valid values (a `NaN` is a
number, so it is valid).  The values `NaN, 2, 1` have no ascending arrangement,
and the result depends on their order: `[NaN, 2, 1]` gives `1` and `[2, 1, NaN]`
gives `2`. -/
theorem calculateMedian_sorted_counterexample :
    validNumber (JSValue.number JSNumber.nan) = true ∧
    (¬ ∃ s : List JSNumber,
      s.Perm (([JSValue.number JSNumber.nan, JSValue.number (JSNumber.ofInt 2),
        JSValue.number (JSNumber.ofInt 1)].filter validNumber).map numericValue) ∧
      s.Pairwise (fun a b => JSNumber.le a b = true)) ∧
    calculateMedian (JSValue.array [JSValue.number JSNumber.nan,
      JSValue.number (JSNumber.ofInt 2), JSValue.number (JSNumber.ofInt 1)]) =
      JSNumber.ofInt 1 ∧
    calculateMedian (JSValue.array [JSValue.number (JSNumber.ofInt 2),
      JSValue.number (JSNumber.ofInt 1), JSValue.number JSNumber.nan]) =
      JSNumber.ofInt 2 ∧
    JSNumber.ofInt 1 ≠ JSNumber.ofInt 2 := by
  refine ⟨by decide, ?_, by decide!, by decide!, by decide!⟩
  rintro ⟨s, hperm, hsorted⟩
  have hvals : ([JSValue.number JSNumber.nan, JSValue.number (JSNumber.ofInt 2),
      JSValue.number (JSNumber.ofInt 1)].filter validNumber).map numericValue =
      [JSNumber.nan, JSNumber.ofInt 2, JSNumber.ofInt 1] := by
    simp [validNumber_number, numericValue]
  rw [hvals] at hperm
  have h1 : JSNumber.nan ∈ s := hperm.mem_iff.2 (by simp)
  have h2 : JSNumber.ofInt 2 ∈ s := hperm.mem_iff.2 (by simp)
  have hne : JSNumber.nan ≠ JSNumber.ofInt 2 := by decide!
  have hsym : s.Pairwise (fun a b => JSNumber.le a b = true ∨ JSNumber.le b a = true) :=
    hsorted.imp (fun h => Or.inl h)
  have := hsym.forall (fun a b h => h.symm) h1 h2 hne
  rcases this with h | h
  · rw [JSNumber.le_nan_left] at h; cases h
  · rw [JSNumber.le_nan_right] at h; cases h

/-- C6, amended: on a sequence with `k > 0` valid elements, none of whose numeric
values is `NaN`, let `s` be their numeric values sorted ascending (such an
arrangement exists and is the one `sort` leaves).  For odd `k`,
`calculateMedian` is the element of `s` at `(k - 1) / 2`; for even `k` it is the
sum of the elements at `k / 2 - 1` and `k / 2`, divided by `2`; the positions read
exist.  The result is `0` when the input is not a sequence, is empty, or has no
valid element. -/
theorem calculateMedian_sorted (xs : List JSValue) (s : List JSNumber)
    (hnan : ∀ v ∈ (xs.filter validNumber).map numericValue, v ≠ JSNumber.nan)
    (hperm : s.Perm ((xs.filter validNumber).map numericValue))
    (hsorted : s.Pairwise (fun a b => JSNumber.le a b = true)) :
    s = sortNumbers ((xs.filter validNumber).map numericValue) ∧
    ((xs.filter validNumber).length % 2 = 1 →
      s.get? (((xs.filter validNumber).length - 1) / 2) =
        some (calculateMedian (JSValue.array xs))) ∧
    (0 < (xs.filter validNumber).length → (xs.filter validNumber).length % 2 = 0 →
      ∃ a b : JSNumber,
        s.get? ((xs.filter validNumber).length / 2 - 1) = some a ∧
        s.get? ((xs.filter validNumber).length / 2) = some b ∧
        (xs.filter validNumber).length / 2 - 1 + 1 = (xs.filter validNumber).length / 2 ∧
        calculateMedian (JSValue.array xs) =
          JSNumber.div (JSNumber.add a b) (JSNumber.ofNat 2)) ∧
    ((xs.filter validNumber).length = 0 →
      calculateMedian (JSValue.array xs) = JSNumber.fin 0) ∧
    (∀ v : JSValue, v.isArray = false → calculateMedian v = JSNumber.fin 0) ∧
    calculateMedian (JSValue.array []) = JSNumber.fin 0 := by
  haveI : IsAntisymm JSNumber (fun a b => JSNumber.le a b = true) :=
    ⟨fun _ _ h1 h2 => JSNumber.le_antisymm h1 h2⟩
  have hs : s = sortNumbers ((xs.filter validNumber).map numericValue) :=
    List.eq_of_perm_of_sorted (hperm.trans (sortNumbers_perm _).symm) hsorted
      (sortNumbers_sorted _ hnan)
  have hlen : s.length = (xs.filter validNumber).length := by
    rw [hperm.length_eq, List.length_map]
  have hmed : calculateMedian (JSValue.array xs) = medianOfSorted s := by
    rw [calculateMedian_eq, ← hs]
  refine ⟨hs, ?_, ?_, ?_, ?_, rfl⟩
  · intro hodd
    have hin : (xs.filter validNumber).length / 2 < s.length := by omega
    have hidx : ((xs.filter validNumber).length - 1) / 2 = (xs.filter validNumber).length / 2 := by
      omega
    rw [hmed, hidx, List.get?_eq_getElem?, List.getElem?_eq_getElem hin]
    simp only [medianOfSorted, hlen]
    rw [if_neg (by omega), if_neg (by omega), List.getD_eq_getElem _ _ hin]
  · intro hpos heven
    have hin1 : (xs.filter validNumber).length / 2 - 1 < s.length := by omega
    have hin2 : (xs.filter validNumber).length / 2 < s.length := by omega
    refine ⟨s.get ⟨_, hin1⟩, s.get ⟨_, hin2⟩, ?_, ?_, by omega, ?_⟩
    · rw [List.get?_eq_getElem?, List.getElem?_eq_getElem hin1]; rfl
    · rw [List.get?_eq_getElem?, List.getElem?_eq_getElem hin2]; rfl
    · rw [hmed]
      simp only [medianOfSorted, hlen]
      rw [if_neg (by omega), if_pos heven, List.getD_eq_getElem _ _ hin1,
        List.getD_eq_getElem _ _ hin2]
      rfl
  · intro h0
    rw [hmed]
    simp only [medianOfSorted]
    rw [if_pos (by omega)]
  · intro v hv
    cases v <;> first | rfl | simp [JSValue.isArray] at hv

/-- The dataset `[4, "1", 3, 2]`: its valid values sorted ascending are
`1, 2, 3, 4`, and the median is `(2 + 3) / 2`. -/
theorem calculateMedian_sorted_witness :
    [JSNumber.ofInt 1, JSNumber.ofInt 2, JSNumber.ofInt 3, JSNumber.ofInt 4] =
      sortNumbers (([JSValue.number (JSNumber.ofInt 4), JSValue.string "1",
        JSValue.number (JSNumber.ofInt 3), JSValue.number (JSNumber.ofInt 2)].filter
        validNumber).map numericValue) ∧
    ∃ a b : JSNumber,
      [JSNumber.ofInt 1, JSNumber.ofInt 2, JSNumber.ofInt 3, JSNumber.ofInt 4].get? 1 =
        some a ∧
      [JSNumber.ofInt 1, JSNumber.ofInt 2, JSNumber.ofInt 3, JSNumber.ofInt 4].get? 2 =
        some b ∧
      calculateMedian (JSValue.array [JSValue.number (JSNumber.ofInt 4), JSValue.string "1",
        JSValue.number (JSNumber.ofInt 3), JSValue.number (JSNumber.ofInt 2)]) =
        JSNumber.div (JSNumber.add a b) (JSNumber.ofNat 2) :=
  have h := calculateMedian_sorted
    [JSValue.number (JSNumber.ofInt 4), JSValue.string "1",
      JSValue.number (JSNumber.ofInt 3), JSValue.number (JSNumber.ofInt 2)]
    [JSNumber.ofInt 1, JSNumber.ofInt 2, JSNumber.ofInt 3, JSNumber.ofInt 4]
    (by decide!) (by decide!) (by decide!)
  ⟨h.1, by
    obtain ⟨a, b, h1, h2, -, h4⟩ := h.2.2.1 (by decide!) (by decide!)
    exact ⟨a, b, h1, h2, h4⟩⟩

/-- The median of a sorted array of doubles, none `NaN`, lies between any lower
and any upper bound of its elements: always when the length is odd, and when it
is even unless the sum of the two middle elements is `NaN` or overflows. -/
theorem medianOfSorted_between (s : List JSNumber) (lo hi : JSNumber)
    (hsorted : s.Pairwise (fun a b => JSNumber.le a b = true))
    (hlo : ∀ v ∈ s, JSNumber.le lo v = true) (hhi : ∀ v ∈ s, JSNumber.le v hi = true)
    (hcase : s.length % 2 = 1 ∨
      (0 < s.length ∧ (∀ v ∈ s, v.isDouble = true) ∧
        ∀ a b : JSNumber, s.get? (s.length / 2 - 1) = some a → s.get? (s.length / 2) = some b →
          JSNumber.add a b ≠ JSNumber.nan ∧
          (a.isFinite = true → b.isFinite = true → (JSNumber.add a b).isFinite = true))) :
    JSNumber.le lo (medianOfSorted s) = true ∧ JSNumber.le (medianOfSorted s) hi = true := by
  rcases hcase with hodd | ⟨hpos, hdbl, hsum⟩
  · have hne : s.length ≠ 0 := by omega
    have hmid : s.length / 2 < s.length := by omega
    simp only [medianOfSorted, hne, if_false]
    rw [if_neg (by omega), List.getD_eq_getElem _ _ hmid]
    exact ⟨hlo _ (List.getElem_mem _), hhi _ (List.getElem_mem _)⟩
  · by_cases hodd : s.length % 2 = 1
    · have hne : s.length ≠ 0 := by omega
      have hmid : s.length / 2 < s.length := by omega
      simp only [medianOfSorted, hne, if_false]
      rw [if_neg (by omega), List.getD_eq_getElem _ _ hmid]
      exact ⟨hlo _ (List.getElem_mem _), hhi _ (List.getElem_mem _)⟩
    · have hne : s.length ≠ 0 := by omega
      have heven : s.length % 2 = 0 := by omega
      have h1 : s.length / 2 - 1 < s.length := by omega
      have h2 : s.length / 2 < s.length := by omega
      have hlt : s.length / 2 - 1 < s.length / 2 := by omega
      simp only [medianOfSorted, hne, if_false, heven, if_true]
      rw [List.getD_eq_getElem _ _ h1, List.getD_eq_getElem _ _ h2]
      have hab : JSNumber.le s[s.length / 2 - 1] s[s.length / 2] = true :=
        (List.pairwise_iff_getElem.1 hsorted) _ _ h1 h2 hlt
      obtain ⟨hn, hf⟩ := hsum s[s.length / 2 - 1] s[s.length / 2]
        (by rw [List.get?_eq_getElem?, List.getElem?_eq_getElem h1])
        (by rw [List.get?_eq_getElem?, List.getElem?_eq_getElem h2])
      obtain ⟨b1, b2⟩ := JSNumber.halfSum_between_of_le
        (hdbl _ (List.getElem_mem _)) (hdbl _ (List.getElem_mem _)) hab hn hf
      exact ⟨JSNumber.le_trans (hlo _ (List.getElem_mem _)) b1,
        JSNumber.le_trans b2 (hhi _ (List.getElem_mem _))⟩

/-- C20, amended: for two datasets whose valid elements have the same numeric
values up to rearrangement, none of them `NaN`, `calculateMedian` returns the same
value, whatever invalid elements are interleaved; and that value lies between the
smallest and the largest valid numeric value (between any lower and any upper
bound of them) when the number of valid elements is odd, and when it is even
unless the sum of the two middle values is `NaN` or overflows. -/
theorem calculateMedian_order_free (xs ys : List JSValue)
    (hperm : ((xs.filter validNumber).map numericValue).Perm
      ((ys.filter validNumber).map numericValue))
    (hnan : ∀ v ∈ (xs.filter validNumber).map numericValue, v ≠ JSNumber.nan) :
    calculateMedian (JSValue.array xs) = calculateMedian (JSValue.array ys) ∧
    ∀ lo hi : JSNumber,
      (∀ v ∈ (xs.filter validNumber).map numericValue, JSNumber.le lo v = true) →
      (∀ v ∈ (xs.filter validNumber).map numericValue, JSNumber.le v hi = true) →
      ((xs.filter validNumber).length % 2 = 1 ∨
        (0 < (xs.filter validNumber).length ∧
          (∀ n : JSNumber, JSValue.number n ∈ xs → n.isDouble = true) ∧
          ∀ a b : JSNumber,
            (sortNumbers ((xs.filter validNumber).map numericValue)).get?
              ((xs.filter validNumber).length / 2 - 1) = some a →
            (sortNumbers ((xs.filter validNumber).map numericValue)).get?
              ((xs.filter validNumber).length / 2) = some b →
            JSNumber.add a b ≠ JSNumber.nan ∧
            (a.isFinite = true → b.isFinite = true →
              (JSNumber.add a b).isFinite = true))) →
      JSNumber.le lo (calculateMedian (JSValue.array xs)) = true ∧
      JSNumber.le (calculateMedian (JSValue.array xs)) hi = true := by
  refine ⟨?_, ?_⟩
  · rw [calculateMedian_eq, calculateMedian_eq, sortNumbers_eq_of_perm hperm hnan]
  · intro lo hi hlo hhi hcase
    rw [calculateMedian_eq]
    have hp := sortNumbers_perm ((xs.filter validNumber).map numericValue)
    have hlen : (sortNumbers ((xs.filter validNumber).map numericValue)).length =
        (xs.filter validNumber).length := by
      rw [hp.length_eq, List.length_map]
    apply medianOfSorted_between _ lo hi (sortNumbers_sorted _ hnan)
      (fun v hv => hlo v (hp.mem_iff.1 hv)) (fun v hv => hhi v (hp.mem_iff.1 hv))
    rw [hlen]
    rcases hcase with h | ⟨h0, hd, hsum⟩
    · exact Or.inl h
    · refine Or.inr ⟨h0, ?_, hsum⟩
      intro v hv
      obtain ⟨x, hx, rfl⟩ := List.mem_map.1 (hp.mem_iff.1 hv)
      have hxs : x ∈ xs := (List.mem_filter.1 hx).1
      exact numericValue_isDouble x (fun n hn => hd n (by rw [← hn]; exact hxs))


/-- C20, as stated, fails.  The median of `[MAX_VALUE, MAX_VALUE]` is `Infinity`,
above the largest value, and the median of `[Infinity, -Infinity]` is `NaN`; with
a `NaN` among the values the result depends on the order: `[NaN, 2, 1]` gives `1`
and `[2, 1, NaN]` gives `2`. -/
theorem calculateMedian_order_free_counterexample :
    stringToNumber "1.7976931348623157e308" = JSNumber.maxValue ∧
    JSNumber.maxValue.isDouble = true ∧
    calculateMedian (JSValue.array [JSValue.number JSNumber.maxValue,
      JSValue.number JSNumber.maxValue]) = JSNumber.posInf ∧
    JSNumber.le (calculateMedian (JSValue.array [JSValue.number JSNumber.maxValue,
      JSValue.number JSNumber.maxValue])) JSNumber.maxValue = false ∧
    calculateMedian (JSValue.array [JSValue.number JSNumber.posInf,
      JSValue.number JSNumber.negInf]) = JSNumber.nan ∧
    calculateMedian (JSValue.array [JSValue.number JSNumber.nan,
      JSValue.number (JSNumber.ofInt 2), JSValue.number (JSNumber.ofInt 1)]) =
      JSNumber.ofInt 1 ∧
    calculateMedian (JSValue.array [JSValue.number (JSNumber.ofInt 2),
      JSValue.number (JSNumber.ofInt 1), JSValue.number JSNumber.nan]) =
      JSNumber.ofInt 2 := by
  decide!

/-- The datasets `[3, "x", 1, "2"]` and `["2", null, 3, 1]` have the valid values
`3, 1, 2` and `2, 3, 1`; both have the median `2`, between `1` and `3`. -/
theorem calculateMedian_order_free_witness :
    ((([JSValue.number (JSNumber.ofInt 3), JSValue.string "x",
        JSValue.number (JSNumber.ofInt 1), JSValue.string "2"].filter validNumber).map
        numericValue).Perm
      (([JSValue.string "2", JSValue.null, JSValue.number (JSNumber.ofInt 3),
        JSValue.number (JSNumber.ofInt 1)].filter validNumber).map numericValue)) ∧
    calculateMedian (JSValue.array [JSValue.number (JSNumber.ofInt 3), JSValue.string "x",
        JSValue.number (JSNumber.ofInt 1), JSValue.string "2"]) =
      calculateMedian (JSValue.array [JSValue.string "2", JSValue.null,
        JSValue.number (JSNumber.ofInt 3), JSValue.number (JSNumber.ofInt 1)]) ∧
    JSNumber.le (JSNumber.ofInt 1)
      (calculateMedian (JSValue.array [JSValue.number (JSNumber.ofInt 3), JSValue.string "x",
        JSValue.number (JSNumber.ofInt 1), JSValue.string "2"])) = true ∧
    JSNumber.le
      (calculateMedian (JSValue.array [JSValue.number (JSNumber.ofInt 3), JSValue.string "x",
        JSValue.number (JSNumber.ofInt 1), JSValue.string "2"])) (JSNumber.ofInt 3) = true :=
  ⟨by decide!,
    (calculateMedian_order_free
      [JSValue.number (JSNumber.ofInt 3), JSValue.string "x",
        JSValue.number (JSNumber.ofInt 1), JSValue.string "2"]
      [JSValue.string "2", JSValue.null, JSValue.number (JSNumber.ofInt 3),
        JSValue.number (JSNumber.ofInt 1)] (by decide!) (by decide!)).1,
    (calculateMedian_order_free
      [JSValue.number (JSNumber.ofInt 3), JSValue.string "x",
        JSValue.number (JSNumber.ofInt 1), JSValue.string "2"]
      [JSValue.string "2", JSValue.null, JSValue.number (JSNumber.ofInt 3),
        JSValue.number (JSNumber.ofInt 1)] (by decide!) (by decide!)).2
      (JSNumber.ofInt 1) (JSNumber.ofInt 3) (by decide!) (by decide!) (Or.inl (by decide!))⟩

/-- An even count: the median of `[1, "4", 2, 3]` is `2.5`, between `1` and `4`,
by the bound for two middle values whose sum does not overflow. -/
theorem calculateMedian_even_example :
    calculateMedian (JSValue.array [JSValue.number (JSNumber.ofInt 1), JSValue.string "4",
      JSValue.number (JSNumber.ofInt 2), JSValue.number (JSNumber.ofInt 3)]) =
      JSNumber.ofRat 5 2 ∧
    JSNumber.le (JSNumber.ofInt 1) (JSNumber.ofRat 5 2) = true ∧
    JSNumber.le (JSNumber.ofRat 5 2) (JSNumber.ofInt 4) = true := by
  decide!

end Dfr
